import Mathlib

/-!
A verification development for `lib/zoneinfo_module.c`.

The C extension is embedded shallowly.

* A C pointer to an array is a total function from indices to values
  (`Nat → α`), and the array's size travels separately, exactly as in the C
  signatures.  A read at an index at or beyond the size is a read of whatever
  the memory holds there: theorems quantify over all such contents.
* A pointer that may be `NULL` is an `Option`; reading through `NULL` is the
  outcome `PyErr.NullPointer`.
* `long` and `int64_t` values are mathematical integers.  Signed overflow is
  undefined in C, so the embedding describes the runs in which the signed
  arithmetic does not overflow.  Unsigned (`size_t`, `unsigned int`)
  subtraction wraps around and is embedded with the wrap (`size_sub`,
  `uint_sub`); sizes themselves are below the respective modulus.
* A `datetime` argument is represented by what the code extracts from it: the
  local timestamp computed by `get_local_timestamp` and the `fold` attribute.
  Adding a `timedelta` adds its seconds, and raises `OverflowError` when the
  sum is not a `datetime` (before 0001-01-01 00:00:00 or after 9999-12-31
  23:59:59).
-/

namespace ZoneInfo

/-! ## Data model -/

/-- Outcomes other than a normal return: the Python exception that is set,
or `NullPointer` for a read through a null pointer. -/
inductive PyErr where
  | NotImplementedError
  | ValueError
  | IndexError
  | OverflowError
  | NullPointer
  deriving DecidableEq, Repr

deriving instance DecidableEq for Except

/-- The struct `_ttinfo`.  The `timedelta` objects `utcoff` and `dstoff` are
represented by their number of seconds, `none` being `NULL`. -/
structure _ttinfo where
  utcoff : Option Int
  dstoff : Option Int
  tzname : Option String
  utcoff_seconds : Int
  deriving DecidableEq, Repr

/-- A Python object reference held by `_tzrule`. -/
structure PyObject where
  addr : Nat
  deriving DecidableEq, Repr

/-- The struct `_tzrule`. -/
structure _tzrule where
  std : _ttinfo
  dst : _ttinfo
  dst_diff : Int
  start : Option PyObject
  end_ : Option PyObject
  deriving DecidableEq, Repr

/-- The struct `PyZoneInfo_ZoneInfo`, without the Python object header, the
key, the weak reference list and the cache flag. -/
structure PyZoneInfo_ZoneInfo where
  num_transitions : Nat
  num_ttinfos : Nat
  trans_list_utc : Nat → Int
  trans_list_wall : Fin 2 → Option (Nat → Int)
  trans_ttinfos : Nat → Option _ttinfo
  ttinfo_before : Option _ttinfo
  tzrule_after : _tzrule
  _ttinfos : Nat → _ttinfo

/-- The constant `2^64`, one more than `SIZE_MAX`. -/
def SIZE_MODULUS : Nat := 2 ^ 64

/-- The constant `2^32`, one more than `UINT_MAX`. -/
def UINT_MODULUS : Nat := 2 ^ 32

/-- Subtraction of `size_t` operands (both below `2^64`), wrapping around. -/
def size_sub (a b : Nat) : Nat :=
  if b ≤ a then a - b else SIZE_MODULUS - (b - a)

/-- Subtraction of `unsigned int` operands (both below `2^32`), wrapping around. -/
def uint_sub (a b : Nat) : Nat :=
  if b ≤ a then a - b else UINT_MODULUS - (b - a)

/-- The macro `TZRULE_STATIC`: the rule has no start. -/
def TZRULE_STATIC (p : _tzrule) : Bool := p.start.isNone

/-! ## `utcoff_to_dstoff` -/

/-- The first loop of `utcoff_to_dstoff`: `dst_count` is incremented once for
every ttinfo (the loop body does not look at `isdsts`). -/
def dst_count_loop : Nat → Nat → Nat → Nat
  | 0, _, dst_count => dst_count
  | n + 1, i, dst_count => dst_count_loop n (i + 1) (dst_count + 1)

/-- The variables the main loop of `utcoff_to_dstoff` changes. -/
structure DstState where
  dstoffs : Nat → Int
  dst_found : Nat

/-- One iteration of the main loop of `utcoff_to_dstoff`, for transition `i`,
after the `break` test. -/
def dstoff_body (trans_idx : Nat → Nat) (utcoffs : Nat → Int) (isdsts : Nat → Bool)
    (num_ttinfos : Nat) (i : Nat) (s : DstState) : DstState :=
  let idx := trans_idx i
  let comp_idx := trans_idx (i - 1)
  if isdsts idx = false ∨ s.dstoffs idx ≠ 0 then s
  else
    let utcoff := utcoffs idx
    let dstoff : Int := if isdsts comp_idx = false then utcoff - utcoffs comp_idx else 0
    if dstoff = 0 ∧ idx < size_sub num_ttinfos 1 then
      let comp_idx := trans_idx (i + 1)
      if isdsts comp_idx = true then s
      else
        let dstoff := utcoff - utcoffs comp_idx
        if dstoff ≠ 0 then
          { dstoffs := Function.update s.dstoffs idx dstoff, dst_found := s.dst_found + 1 }
        else s
    else if dstoff ≠ 0 then
      { dstoffs := Function.update s.dstoffs idx dstoff, dst_found := s.dst_found + 1 }
    else s

/-- The main loop of `utcoff_to_dstoff`, `for (i = 1; i < num_transitions; ++i)`:
`count` is the number of iterations left (`num_transitions - i`), `i` the loop
variable.  The `break` leaves the state as it is. -/
def dstoff_loop (trans_idx : Nat → Nat) (utcoffs : Nat → Int) (isdsts : Nat → Bool)
    (num_ttinfos dst_count : Nat) : Nat → Nat → DstState → DstState
  | 0, _, s => s
  | count + 1, i, s =>
    if dst_count = s.dst_found then s
    else dstoff_loop trans_idx utcoffs isdsts num_ttinfos dst_count count (i + 1)
      (dstoff_body trans_idx utcoffs isdsts num_ttinfos i s)

/-- The last loop of `utcoff_to_dstoff`: every DST ttinfo whose offset is
still 0 gets 3600. -/
def dstoff_default_loop (isdsts : Nat → Bool) : Nat → Nat → (Nat → Int) → (Nat → Int)
  | 0, _, dstoffs => dstoffs
  | count + 1, idx, dstoffs =>
    dstoff_default_loop isdsts count (idx + 1)
      (if isdsts idx = true ∧ dstoffs idx = 0 then Function.update dstoffs idx 3600 else dstoffs)

/-- The function `utcoff_to_dstoff`; the result is the array `dstoffs` as the
function leaves it. -/
def utcoff_to_dstoff (trans_idx : Nat → Nat) (utcoffs : Nat → Int) (dstoffs : Nat → Int)
    (isdsts : Nat → Bool) (num_transitions num_ttinfos : Nat) : Nat → Int :=
  let dst_count := dst_count_loop num_ttinfos 0 0
  let s := dstoff_loop trans_idx utcoffs isdsts num_ttinfos dst_count (num_transitions - 1) 1
    { dstoffs := dstoffs, dst_found := 0 }
  if s.dst_found < dst_count then dstoff_default_loop isdsts num_ttinfos 0 s.dstoffs
  else s.dstoffs

/-! ## `ts_to_local` -/

/-- The loop `for (i = 1; i < num_transitions; ++i)` of `ts_to_local`; the state
is the pair `trans_local[0]`, `trans_local[1]`. -/
def ts_to_local_loop (trans_idx : Nat → Nat) (utcoff : Nat → Int) :
    Nat → Nat → (Nat → Int) × (Nat → Int) → (Nat → Int) × (Nat → Int)
  | 0, _, w => w
  | count + 1, i, w =>
    let offset_0 := utcoff (trans_idx (i - 1))
    let offset_1 := utcoff (trans_idx i)
    let o : Int × Int := if offset_1 > offset_0 then (offset_1, offset_0) else (offset_0, offset_1)
    ts_to_local_loop trans_idx utcoff count (i + 1)
      (Function.update w.1 i (w.1 i + o.1), Function.update w.2 i (w.2 i + o.2))

/-- The function `ts_to_local`.  `fresh k` is what the block allocated for
`trans_local[k]` holds beyond the `num_transitions` entries that `memcpy`
fills; `trans_local` is the array of two pointers as the caller passes it.
The result is that array on return (the return code is always 0: allocation
failure is not modelled). -/
def ts_to_local (fresh : Fin 2 → Nat → Int) (trans_idx : Nat → Nat) (trans_utc : Nat → Int)
    (utcoff : Nat → Int) (trans_local : Fin 2 → Option (Nat → Int)) (num_transitions : Nat) :
    Fin 2 → Option (Nat → Int) :=
  if num_transitions = 0 then trans_local
  else
    let copy : Fin 2 → Nat → Int := fun k i => if i < num_transitions then trans_utc i else fresh k i
    let o : Int × Int :=
      if num_transitions > 1 then
        let offset_0 := utcoff 0
        let offset_1 := utcoff (trans_idx 0)
        if offset_1 > offset_0 then (offset_1, offset_0) else (offset_0, offset_1)
      else (utcoff 0, utcoff 0)
    let w0 : (Nat → Int) × (Nat → Int) :=
      (Function.update (copy 0) 0 (copy 0 0 + o.1), Function.update (copy 1) 0 (copy 1 0 + o.2))
    let w := ts_to_local_loop trans_idx utcoff (num_transitions - 1) 1 w0
    fun k => if k = 0 then some w.1 else some w.2

/-! ## `_bisect` -/

/-- The loop `while (lo < hi)` of `_bisect`.  The first argument bounds the
number of iterations; `bisect_loop_fuel` shows that `hi - lo` is enough. -/
def bisect_loop (value : Int) (arr : Nat → Int) : Nat → Nat → Nat → Nat
  | 0, _, hi => hi
  | fuel + 1, lo, hi =>
    if lo < hi then
      let m := (lo + hi) / 2
      if arr m > value then bisect_loop value arr fuel lo m
      else bisect_loop value arr fuel (m + 1) hi
    else hi

/-- The function `_bisect`. -/
def _bisect (value : Int) (arr : Nat → Int) (size : Nat) : Nat :=
  bisect_loop value arr size 0 size

/-! ## `find_ttinfo` and the methods built on it -/

/-- The function `find_ttinfo`.  `ts` is the value `get_local_timestamp` stores
for `dt`, `fold` the fold of `dt`.  `.ok p` is the returned pointer (`none` when
`ttinfo_before` is `NULL`), `.error e` the return of `NULL` with `e` set.  The
two `assert`s are compiled out. -/
def find_ttinfo (self : PyZoneInfo_ZoneInfo) (ts : Int) (fold : Fin 2) :
    Except PyErr (Option _ttinfo) :=
  match self.trans_list_wall fold with
  | none => .error .NullPointer
  | some local_transitions =>
    if ts < local_transitions 0 then .ok self.ttinfo_before
    else if ts > local_transitions (uint_sub self.num_transitions 1) then
      .error .NotImplementedError
    else
      let idx := size_sub (_bisect ts local_transitions self.num_transitions) 1
      .ok (self.trans_ttinfos idx)

/-- The common end of `zoneinfo_utcoffset`, `zoneinfo_dst` and
`zoneinfo_tzname`: a `NULL` from `find_ttinfo` is passed on, otherwise the
field of the ttinfo is returned after `Py_INCREF`, which reads through the
field. -/
def return_field {α : Type} (tti : Option _ttinfo) (field : _ttinfo → Option α) :
    Except PyErr (Option α) :=
  match tti with
  | none => .ok none
  | some t =>
    match field t with
    | none => .error .NullPointer
    | some v => .ok (some v)

/-- The method `zoneinfo_utcoffset`: the `utcoff` of the ttinfo found. -/
def zoneinfo_utcoffset (self : PyZoneInfo_ZoneInfo) (ts : Int) (fold : Fin 2) :
    Except PyErr (Option Int) :=
  match find_ttinfo self ts fold with
  | .error e => .error e
  | .ok tti => return_field tti fun t => t.utcoff

/-- The method `zoneinfo_dst`: the `dstoff` of the ttinfo found. -/
def zoneinfo_dst (self : PyZoneInfo_ZoneInfo) (ts : Int) (fold : Fin 2) :
    Except PyErr (Option Int) :=
  match find_ttinfo self ts fold with
  | .error e => .error e
  | .ok tti => return_field tti fun t => t.dstoff

/-- The method `zoneinfo_tzname`: the `tzname` of the ttinfo found. -/
def zoneinfo_tzname (self : PyZoneInfo_ZoneInfo) (ts : Int) (fold : Fin 2) :
    Except PyErr (Option String) :=
  match find_ttinfo self ts fold with
  | .error e => .error e
  | .ok tti => return_field tti fun t => t.tzname

/-! ## `zoneinfo_fromutc` -/

/-- The local timestamp of `datetime.min`, 0001-01-01 00:00:00 (see
`datetime_range_timestamps`). -/
def datetime_min_ts : Int := -62135596800

/-- The local timestamp of the last second of `datetime.max`, 9999-12-31
23:59:59 (see `datetime_range_timestamps`). -/
def datetime_max_ts : Int := 253402300799

/-- The end of `zoneinfo_fromutc`: `PyNumber_Add(dt, tti->utcoff)` and the
setting of the fold.  The addition of the interpreter returns `NULL` with
`OverflowError` set when the sum is not a `datetime` (before 0001-01-01 or
after 9999-12-31), and the function then returns `NULL`.  Otherwise the result
is the local timestamp of the returned datetime and its fold. -/
def fromutc_result (timestamp : Int) (tti : Option _ttinfo) (fold : Fin 2) :
    Except PyErr (Int × Fin 2) :=
  match tti with
  | none => .error .NullPointer
  | some t =>
    match t.utcoff with
    | none => .error .NullPointer
    | some utcoff =>
      if timestamp + utcoff < datetime_min_ts ∨ datetime_max_ts < timestamp + utcoff then
        .error .OverflowError
      else .ok (timestamp + utcoff, fold)

/-- The function `zoneinfo_fromutc`, for a `dt` that is a datetime whose tzinfo
is `self`; `timestamp` is the value `get_local_timestamp` stores for `dt`. -/
def zoneinfo_fromutc (self : PyZoneInfo_ZoneInfo) (timestamp : Int) :
    Except PyErr (Int × Fin 2) :=
  let num_trans := self.num_transitions
  if num_trans ≥ 1 ∧ timestamp < self.trans_list_utc 0 then
    fromutc_result timestamp self.ttinfo_before 0
  else if (num_trans = 0 ∨ timestamp > self.trans_list_utc (size_sub num_trans 1)) ∧
      TZRULE_STATIC self.tzrule_after = false then
    .error .NotImplementedError
  else if num_trans = 0 then
    fromutc_result timestamp (some self.tzrule_after.std) 0
  else
    let idx := _bisect timestamp self.trans_list_utc num_trans
    let p : Option _ttinfo × Option _ttinfo :=
      if idx ≥ 2 then (self.trans_ttinfos (size_sub idx 2), self.trans_ttinfos (size_sub idx 1))
      else if idx = num_trans then
        (self.trans_ttinfos (size_sub num_trans 1), some self.tzrule_after.std)
      else (self.ttinfo_before, self.trans_ttinfos 0)
    match p.1, p.2 with
    | some tti_prev, some tti =>
      let shift := tti_prev.utcoff_seconds - tti.utcoff_seconds
      let fold : Fin 2 :=
        if shift > timestamp - self.trans_list_utc (size_sub idx 1) then 1 else 0
      fromutc_result timestamp (some tti) fold
    | _, _ => .error .NullPointer

/-! ## Calendar arithmetic -/

/-- The constant `EPOCHORDINAL`. -/
def EPOCHORDINAL : Int := 719163

/-- The thirteen entries of the array `DAYS_BEFORE_MONTH`. -/
def DAYS_BEFORE_MONTH_entries : List Int :=
  [-1, 0, 31, 59, 90, 120, 151, 181, 212, 243, 273, 304, 334]

/-- The array `DAYS_BEFORE_MONTH` read at the `int` index `m`; `outside` is
what the memory around the thirteen entries holds. -/
def DAYS_BEFORE_MONTH (outside : Int → Int) (m : Int) : Int :=
  if 0 ≤ m ∧ m < 13 then DAYS_BEFORE_MONTH_entries.getD m.toNat 0 else outside m

/-- The function `is_leap_year`.  `ayear` is the value of the cast to
`unsigned int`, the year reduced modulo `2^32`; the result is the truth value
of the returned `int`. -/
def is_leap_year (year : Int) : Bool :=
  let ayear : Int := year % 4294967296
  decide (ayear % 4 = 0 ∧ (ayear % 100 ≠ 0 ∨ ayear % 400 = 0))

/-- The function `ymd_to_ord`; `/` of C is `Int.tdiv`. -/
def ymd_to_ord (outside : Int → Int) (y m d : Int) : Int :=
  let y := y - 1
  let days_before_year := (y * 365) + Int.tdiv y 4 - Int.tdiv y 100 + Int.tdiv y 400
  let yearday := DAYS_BEFORE_MONTH outside m
  let yearday := if m > 2 ∧ is_leap_year (y + 1) = true then yearday + 1 else yearday
  days_before_year + yearday + d

/-- The fields of an exact `datetime` object that the code reads; the access
macros yield nonnegative values. -/
structure PyDateTime where
  year : Nat
  month : Nat
  day : Nat
  hour : Nat
  minute : Nat
  second : Nat
  fold : Fin 2
  deriving DecidableEq, Repr

/-- The function `get_local_timestamp` on an exact `datetime`: the value it
stores in `*local_ts` (it returns 0). -/
def get_local_timestamp (outside : Int → Int) (dt : PyDateTime) : Int :=
  let ord := ymd_to_ord outside dt.year dt.month dt.day
  (ord - EPOCHORDINAL) * 86400 + (dt.hour * 3600 + dt.minute * 60 + dt.second)

/-- The leap-year rule in the words of the specification: divisible by 4 and
(not divisible by 100 or divisible by 400). -/
def spec_is_leap (y : Int) : Prop :=
  y % 4 = 0 ∧ (y % 100 ≠ 0 ∨ y % 400 = 0)

instance (y : Int) : Decidable (spec_is_leap y) := by
  unfold spec_is_leap; infer_instance

/-- The month-offset table of the specification, indexed by month. -/
def spec_month_offset : List Int :=
  [-1, 0, 31, 59, 90, 120, 151, 181, 212, 243, 273, 304, 334]

/-- The local seconds of a civil time in the words of the specification
(section 4.6), with the epoch ordinal 719163. -/
def spec_local_seconds (y m d hour minute second : Int) : Int :=
  (365 * (y - 1) + (y - 1) / 4 - (y - 1) / 100 + (y - 1) / 400 + spec_month_offset.getD m.toNat 0 +
    (if m > 2 ∧ spec_is_leap y then 1 else 0) + d - 719163) * 86400 +
    hour * 3600 + minute * 60 + second

/-- The number `daysBeforeYear(y)` of the specification: the days before
1 January of year `y`. -/
def spec_days_before_year (y : Int) : Int :=
  365 * (y - 1) + (y - 1) / 4 - (y - 1) / 100 + (y - 1) / 400

/-- The days of year `y` before day 1 of month `m`, less one: the month offset
of the specification plus the leap day after February. -/
def spec_month_start (y m : Int) : Int :=
  spec_month_offset.getD m.toNat 0 + (if m > 2 ∧ spec_is_leap y then 1 else 0)

/-- The number of days of month `m` of year `y` in the proleptic Gregorian
calendar. -/
def days_in_month (y m : Int) : Int :=
  if m = 2 then (if spec_is_leap y then 29 else 28)
  else if m = 4 ∨ m = 6 ∨ m = 9 ∨ m = 11 then 30
  else 31

/-- The triple `(y, m, d)` is a date of the proleptic Gregorian calendar with a
year in 1..9999. -/
def valid_date (y m d : Int) : Prop :=
  1 ≤ y ∧ y ≤ 9999 ∧ 1 ≤ m ∧ m ≤ 12 ∧ 1 ≤ d ∧ d ≤ days_in_month y m

instance (y m d : Int) : Decidable (valid_date y m d) := by
  unfold valid_date; infer_instance

/-- The calendar day after `(y, m, d)`. -/
def next_day (y m d : Int) : Int × Int × Int :=
  if d < days_in_month y m then (y, m, d + 1)
  else if m < 12 then (y, m + 1, 1)
  else (y + 1, 1, 1)

/-- The date `(y1, m1, d1)` is chronologically before `(y2, m2, d2)`. -/
def date_before (y1 m1 d1 y2 m2 d2 : Int) : Prop :=
  y1 < y2 ∨ (y1 = y2 ∧ (m1 < m2 ∨ (m1 = m2 ∧ d1 < d2)))

instance (y1 m1 d1 y2 m2 d2 : Int) : Decidable (date_before y1 m1 d1 y2 m2 d2) := by
  unfold date_before; infer_instance

/-! ## `load_data` -/

/-- The tuple that `_common.load_data` returns: the transition indices, the
UTC transition times, and per ttinfo the UTC offset, the DST flag and the
abbreviation. -/
structure RawData where
  trans_idx : List Nat
  trans_utc : List Int
  utcoff : List Int
  isdst : List Bool
  abbr : List String
  deriving DecidableEq, Repr

/-- What the blocks that `load_data` obtains from the allocator hold wherever
`load_data` does not write: one field per block, named after the pointer. -/
structure Heap where
  trans_list_utc : Nat → Int
  trans_idx : Nat → Nat
  utcoff : Nat → Int
  isdst : Nat → Bool
  dstoff : Nat → Int
  trans_list_wall : Fin 2 → Nat → Int
  _ttinfos : Nat → _ttinfo
  trans_ttinfos : Nat → Option _ttinfo

/-- The function `load_timedelta`: the timedelta of that many seconds (failure
of the timedelta constructor is not modelled). -/
def load_timedelta (seconds : Int) : Option Int := some seconds

/-- The function `build_ttinfo`. -/
def build_ttinfo (utcoffset dstoffset : Int) (tzname : String) : _ttinfo :=
  { utcoff := load_timedelta utcoffset, dstoff := load_timedelta dstoffset,
    tzname := some tzname, utcoff_seconds := utcoffset }

/-- The first loop of `load_data`, over the transitions: it fills
`trans_list_utc` and `trans_idx` (the state) and checks each index. -/
def load_transitions_loop (d : RawData) (num_ttinfos : Nat) :
    Nat → Nat → (Nat → Int) × (Nat → Nat) → Except PyErr ((Nat → Int) × (Nat → Nat))
  | 0, _, m => .ok m
  | count + 1, i, m =>
    match d.trans_utc[i]? with
    | none => .error .IndexError
    | some num =>
      match d.trans_idx[i]? with
      | none => .error .IndexError
      | some cur_trans_idx =>
        if cur_trans_idx > num_ttinfos then .error .ValueError
        else load_transitions_loop d num_ttinfos count (i + 1)
          (Function.update m.1 i num, Function.update m.2 i cur_trans_idx)

/-- The second loop of `load_data`, over the ttinfos: it fills `utcoff` and
`isdst` (the state). -/
def load_ttinfos_loop (d : RawData) :
    Nat → Nat → (Nat → Int) × (Nat → Bool) → Except PyErr ((Nat → Int) × (Nat → Bool))
  | 0, _, m => .ok m
  | count + 1, i, m =>
    match d.utcoff[i]? with
    | none => .error .IndexError
    | some num =>
      match d.isdst[i]? with
      | none => .error .IndexError
      | some flag =>
        load_ttinfos_loop d count (i + 1) (Function.update m.1 i num, Function.update m.2 i flag)

/-- The third loop of `load_data`: it builds `_ttinfos` (the state). -/
def build_ttinfos_loop (d : RawData) (utcoff dstoff : Nat → Int) :
    Nat → Nat → (Nat → _ttinfo) → Except PyErr (Nat → _ttinfo)
  | 0, _, m => .ok m
  | count + 1, i, m =>
    match d.abbr[i]? with
    | none => .error .IndexError
    | some tzname =>
      build_ttinfos_loop d utcoff dstoff count (i + 1)
        (Function.update m i (build_ttinfo (utcoff i) (dstoff i) tzname))

/-- The fourth loop of `load_data`: `trans_ttinfos[i] = &_ttinfos[trans_idx[i]]`.
A pointer into `_ttinfos` is represented by the ttinfo it points to. -/
def trans_ttinfos_loop (trans_idx : Nat → Nat) (ttinfos : Nat → _ttinfo) :
    Nat → Nat → (Nat → Option _ttinfo) → (Nat → Option _ttinfo)
  | 0, _, m => m
  | count + 1, i, m =>
    trans_ttinfos_loop trans_idx ttinfos count (i + 1)
      (Function.update m i (some (ttinfos (trans_idx i))))

/-- The fifth loop of `load_data`: `ttinfo_before` becomes the first ttinfo
that is not DST, when there is one. -/
def ttinfo_before_loop (isdst : Nat → Bool) (ttinfos : Nat → _ttinfo) :
    Nat → Nat → Option _ttinfo → Option _ttinfo
  | 0, _, before => before
  | count + 1, i, before =>
    if isdst i = false then some (ttinfos i)
    else ttinfo_before_loop isdst ttinfos count (i + 1) before

/-- The zeroed `_ttinfo` of a freshly allocated object. -/
def ttinfo_zero : _ttinfo :=
  { utcoff := none, dstoff := none, tzname := none, utcoff_seconds := 0 }

/-- The zeroed `_tzrule` of a freshly allocated object. -/
def tzrule_zero : _tzrule :=
  { std := ttinfo_zero, dst := ttinfo_zero, dst_diff := 0, start := none, end_ := none }

/-- The function `load_data`, from the unpacked data tuple on, for a `self`
fresh from `tp_alloc` (all fields zero).  `.ok self` is the return of 0 with
the object filled in, `.error e` the return of -1.  Allocation failure and
integers that do not fit their C type are not modelled, and `assert` is
compiled out. -/
def load_data (heap : Heap) (d : RawData) : Except PyErr PyZoneInfo_ZoneInfo :=
  let num_transitions := d.trans_utc.length
  let num_ttinfos := d.utcoff.length
  match load_transitions_loop d num_ttinfos num_transitions 0
      (heap.trans_list_utc, heap.trans_idx) with
  | .error e => .error e
  | .ok (trans_list_utc, trans_idx) =>
    match load_ttinfos_loop d num_ttinfos 0 (heap.utcoff, heap.isdst) with
    | .error e => .error e
    | .ok (utcoff, isdst) =>
      let dstoff0 : Nat → Int := fun i => if i < num_ttinfos then 0 else heap.dstoff i
      let dstoff := utcoff_to_dstoff trans_idx utcoff dstoff0 isdst num_transitions num_ttinfos
      let trans_list_wall := ts_to_local heap.trans_list_wall trans_idx trans_list_utc utcoff
        (fun _ => none) num_transitions
      match build_ttinfos_loop d utcoff dstoff num_ttinfos 0 heap._ttinfos with
      | .error e => .error e
      | .ok ttinfos =>
        let trans_ttinfos0 : Nat → Option _ttinfo :=
          fun i => if i < num_transitions then none else heap.trans_ttinfos i
        let trans_ttinfos := trans_ttinfos_loop trans_idx ttinfos num_transitions 0 trans_ttinfos0
        let before := ttinfo_before_loop isdst ttinfos num_ttinfos 0 none
        let before := if before = none ∧ num_ttinfos > 0 then some (ttinfos 0) else before
        .ok { num_transitions := num_transitions
              num_ttinfos := num_ttinfos
              trans_list_utc := trans_list_utc
              trans_list_wall := trans_list_wall
              trans_ttinfos := trans_ttinfos
              ttinfo_before := before
              tzrule_after := tzrule_zero
              _ttinfos := ttinfos }

/-! ## Predicates used in the statements -/

/-- The first `n` entries of `arr` are strictly increasing. -/
def StrictlyIncreasing (arr : Nat → Int) (n : Nat) : Prop :=
  ∀ i, i < n - 1 → arr i < arr (i + 1)

/-- The first `n` entries of `arr` are nondecreasing. -/
def Nondecreasing (arr : Nat → Int) (n : Nat) : Prop :=
  ∀ i, i < n - 1 → arr i ≤ arr (i + 1)

instance (arr : Nat → Int) (n : Nat) : Decidable (StrictlyIncreasing arr n) := by
  unfold StrictlyIncreasing; infer_instance

instance (arr : Nat → Int) (n : Nat) : Decidable (Nondecreasing arr n) := by
  unfold Nondecreasing; infer_instance

/-- Every one of the first `num_transitions` entries of `trans_idx` is the
index of a ttinfo. -/
def ValidIndices (trans_idx : Nat → Nat) (num_transitions num_ttinfos : Nat) : Prop :=
  ∀ i, i < num_transitions → trans_idx i < num_ttinfos

instance (trans_idx : Nat → Nat) (n m : Nat) : Decidable (ValidIndices trans_idx n m) := by
  unfold ValidIndices; infer_instance

/-- The array that holds the entries of `xs` and, beyond them, what `rest` holds. -/
def mem_of {α : Type} (xs : List α) (rest : Nat → α) : Nat → α :=
  fun i => if h : i < xs.length then xs[i] else rest i

/-- The data tuple is what the interface requires of the provider: one index
per transition, each below the number of ttinfos, strictly increasing
transition times, and one flag and one abbreviation per ttinfo. -/
def RawData.Valid (d : RawData) : Prop :=
  d.trans_idx.length = d.trans_utc.length ∧
  (∀ i, i < d.trans_idx.length → d.trans_idx.getD i 0 < d.utcoff.length) ∧
  (∀ i, i < d.trans_utc.length - 1 → d.trans_utc.getD i 0 < d.trans_utc.getD (i + 1) 0) ∧
  d.isdst.length = d.utcoff.length ∧
  d.abbr.length = d.utcoff.length

instance (d : RawData) : Decidable d.Valid := by
  unfold RawData.Valid; infer_instance

/-! ## Auxiliary notions for `utcoff_to_dstoff` -/

/-- The state of the main loop of `utcoff_to_dstoff` when the pass reaches
transition `i` (for `1 ≤ i`): the loop run from `i = 1` for `i - 1`
iterations on the initial state (see `dstoff_loop_add`). -/
def dstoff_state_at (trans_idx : Nat → Nat) (utcoffs : Nat → Int) (dstoffs : Nat → Int)
    (isdsts : Nat → Bool) (num_ttinfos i : Nat) : DstState :=
  dstoff_loop trans_idx utcoffs isdsts num_ttinfos (dst_count_loop num_ttinfos 0 0) (i - 1) 1
    { dstoffs := dstoffs, dst_found := 0 }

/-- The number of ttinfos below `m` whose DST offset is set. -/
def resolved_count (d : Nat → Int) (m : Nat) : Nat :=
  ((Finset.range m).filter fun j => d j ≠ 0).card

/-- What the main loop keeps true: a ttinfo that is not DST keeps its offset,
an offset that is set stays as it is, and `dst_found` counts no more than the
ttinfos whose offset is set. -/
structure DstInv (isdsts : Nat → Bool) (m : Nat) (s0 s : DstState) : Prop where
  keep_std : ∀ j, isdsts j = false → s.dstoffs j = s0.dstoffs j
  keep_set : ∀ j, s0.dstoffs j ≠ 0 → s.dstoffs j = s0.dstoffs j
  found_le : s.dst_found ≤ resolved_count s.dstoffs m

/-! ## What `load_data` establishes -/

/-- Entry `i` of the UTC transition times of the data tuple. -/
def RawData.utc (d : RawData) (i : Nat) : Int := d.trans_utc.getD i 0

/-- Entry `i` of the transition indices of the data tuple. -/
def RawData.idx (d : RawData) (i : Nat) : Nat := d.trans_idx.getD i 0

/-- Entry `j` of the UTC offsets of the data tuple. -/
def RawData.off (d : RawData) (j : Nat) : Int := d.utcoff.getD j 0

/-- The relation between a data tuple and the object `load_data` fills in
from it, as far as the conversions use it (`load_data_built` proves it for
valid data). -/
structure Built (d : RawData) (zone : PyZoneInfo_ZoneInfo) : Prop where
  num_transitions : zone.num_transitions = d.trans_utc.length
  num_ttinfos : zone.num_ttinfos = d.utcoff.length
  utc : ∀ i, i < d.trans_utc.length → zone.trans_list_utc i = d.utc i
  ttinfos : ∀ j, j < d.utcoff.length →
    (zone._ttinfos j).utcoff = some (d.off j) ∧ (zone._ttinfos j).utcoff_seconds = d.off j
  trans : ∀ i, i < d.trans_utc.length → zone.trans_ttinfos i = some (zone._ttinfos (d.idx i))
  before : 0 < d.utcoff.length → d.isdst.getD 0 true = false →
    zone.ttinfo_before = some (zone._ttinfos 0)
  tail : zone.tzrule_after = tzrule_zero
  wall : 1 ≤ d.trans_utc.length → ∃ w0 w1 : Nat → Int,
    zone.trans_list_wall 0 = some w0 ∧ zone.trans_list_wall 1 = some w1 ∧
    (∀ i, 1 ≤ i → i < d.trans_utc.length →
      w0 i = d.utc i + max (d.off (d.idx (i - 1))) (d.off (d.idx i)) ∧
      w1 i = d.utc i + min (d.off (d.idx (i - 1))) (d.off (d.idx i))) ∧
    w0 0 = d.utc 0 +
      (if d.trans_utc.length > 1 then max (d.off 0) (d.off (d.idx 0)) else d.off 0) ∧
    w1 0 = d.utc 0 +
      (if d.trans_utc.length > 1 then min (d.off 0) (d.off (d.idx 0)) else d.off 0)

/-! ## A table used for the concrete instances -/

/-- The ttinfo of the standard time A: UTC offset -3600. -/
def tti_a : _ttinfo := build_ttinfo (-3600) 0 "A"

/-- The ttinfo of the standard time B: UTC offset -7200. -/
def tti_b : _ttinfo := build_ttinfo (-7200) 0 "B"

/-- A table with two transitions: at 1000000 from A (offset -3600) to B
(offset -7200), at 2000000 from B back to A.  The tail rule uses A and has
the given `start` (`none` makes it static). -/
def example_table (start : Option PyObject) : PyZoneInfo_ZoneInfo :=
  { num_transitions := 2
    num_ttinfos := 2
    trans_list_utc := mem_of [1000000, 2000000] fun _ => 0
    trans_list_wall := fun k =>
      if k = 0 then some (mem_of [996400, 1996400] fun _ => 0)
      else some (mem_of [992800, 1992800] fun _ => 0)
    trans_ttinfos := mem_of [some tti_b, some tti_a] fun _ => none
    ttinfo_before := some tti_a
    tzrule_after := { std := tti_a, dst := tti_a, dst_diff := 0, start := start, end_ := none }
    _ttinfos := mem_of [tti_a, tti_b] fun _ => ttinfo_zero }

/-- A heap whose blocks hold zeros. -/
def zero_heap : Heap :=
  { trans_list_utc := fun _ => 0
    trans_idx := fun _ => 0
    utcoff := fun _ => 0
    isdst := fun _ => false
    dstoff := fun _ => 0
    trans_list_wall := fun _ _ => 0
    _ttinfos := fun _ => ttinfo_zero
    trans_ttinfos := fun _ => none }

/-- The data tuple of the zone of `example_table`: ttinfo 0 is A, ttinfo 1 is
B, the transition at 1000000 goes to B and the one at 2000000 back to A. -/
def example_data : RawData :=
  { trans_idx := [1, 0]
    trans_utc := [1000000, 2000000]
    utcoff := [-3600, -7200]
    isdst := [false, false]
    abbr := ["A", "B"] }

/-- The object that `load_data` fills in from `example_data`. -/
def example_zone : PyZoneInfo_ZoneInfo :=
  match load_data zero_heap example_data with
  | .ok zone => zone
  | .error _ => example_table none

/-- A data tuple whose only transition has the index 1, the number of
ttinfos. -/
def index_at_count_data : RawData :=
  { trans_idx := [1]
    trans_utc := [1000000]
    utcoff := [0]
    isdst := [false]
    abbr := ["A"] }

/-- The data tuple of a zone with one ttinfo and no transition, such as UTC. -/
def no_transition_data : RawData :=
  { trans_idx := []
    trans_utc := []
    utcoff := [0]
    isdst := [false]
    abbr := ["UTC"] }

/-- A data tuple whose ttinfo 0 is DST (offset 7200) and whose ttinfo 1 is
standard (offset 3600); the transition at 1000000 goes to ttinfo 0, the one at
2000000 to ttinfo 1. -/
def dst_first_data : RawData :=
  { trans_idx := [0, 1]
    trans_utc := [1000000, 2000000]
    utcoff := [7200, 3600]
    isdst := [true, false]
    abbr := ["D", "S"] }

/-- The object that `load_data` fills in from `dst_first_data`. -/
def dst_first_zone : PyZoneInfo_ZoneInfo :=
  match load_data zero_heap dst_first_data with
  | .ok zone => zone
  | .error _ => example_table none

/-- The table `example_table` with a static tail rule whose ttinfo is B
(offset -7200), while the last transition goes to A (offset -3600). -/
def tail_b_table : PyZoneInfo_ZoneInfo :=
  { example_table none with
    tzrule_after := { std := tti_b, dst := tti_b, dst_diff := 0, start := none, end_ := none } }

/-- A table with the single transition at 1000000 from A to B and a static tail
rule whose ttinfo is A. -/
def one_transition_table : PyZoneInfo_ZoneInfo :=
  { num_transitions := 1
    num_ttinfos := 2
    trans_list_utc := mem_of [1000000] fun _ => 0
    trans_list_wall := fun k =>
      if k = 0 then some (mem_of [996400] fun _ => 0) else some (mem_of [992800] fun _ => 0)
    trans_ttinfos := mem_of [some tti_b] fun _ => none
    ttinfo_before := some tti_a
    tzrule_after := { std := tti_a, dst := tti_a, dst_diff := 0, start := none, end_ := none }
    _ttinfos := mem_of [tti_a, tti_b] fun _ => ttinfo_zero }

/-- The data tuple of a zone with the single transition at 1000000 from A
(offset -3600) to B (offset -7200). -/
def one_transition_data : RawData :=
  { trans_idx := [1]
    trans_utc := [1000000]
    utcoff := [-3600, -7200]
    isdst := [false, false]
    abbr := ["A", "B"] }

end ZoneInfo

namespace ZoneInfo

/-! ## Facts about `utcoff_to_dstoff` -/

theorem dst_count_loop_eq (n i c : Nat) : dst_count_loop n i c = c + n := by
  induction n generalizing i c with
  | zero => rfl
  | succ n ih => rw [dst_count_loop, ih]; omega

/-- An iteration of the main loop either leaves the state alone or stores a
nonzero offset in the so far unresolved DST ttinfo of transition `i`. -/
theorem dstoff_body_cases (trans_idx : Nat → Nat) (utcoffs : Nat → Int) (isdsts : Nat → Bool)
    (m i : Nat) (s : DstState) :
    dstoff_body trans_idx utcoffs isdsts m i s = s ∨
    ∃ v : Int, v ≠ 0 ∧ isdsts (trans_idx i) = true ∧ s.dstoffs (trans_idx i) = 0 ∧
      dstoff_body trans_idx utcoffs isdsts m i s =
        { dstoffs := Function.update s.dstoffs (trans_idx i) v, dst_found := s.dst_found + 1 } := by
  unfold dstoff_body
  by_cases h1 : isdsts (trans_idx i) = false ∨ s.dstoffs (trans_idx i) ≠ 0
  · left; simp only [if_pos h1]
  · have hd : isdsts (trans_idx i) = true := by
      cases hb : isdsts (trans_idx i) with
      | true => rfl
      | false => exact absurd (Or.inl hb) h1
    have hz : s.dstoffs (trans_idx i) = 0 := by
      by_contra hc; exact h1 (Or.inr hc)
    simp only [if_neg h1]
    split_ifs <;>
      first
      | (left; rfl)
      | (right; exact ⟨_, by assumption, hd, hz, rfl⟩)

theorem resolved_count_update (d : Nat → Int) (m idx : Nat) (v : Int) (hidx : idx < m)
    (hz : d idx = 0) (hv : v ≠ 0) :
    resolved_count (Function.update d idx v) m = resolved_count d m + 1 := by
  unfold resolved_count
  have hset : ((Finset.range m).filter fun j => Function.update d idx v j ≠ 0) =
      insert idx ((Finset.range m).filter fun j => d j ≠ 0) := by
    ext j
    simp only [Finset.mem_filter, Finset.mem_range, Finset.mem_insert, Function.update_apply]
    by_cases hj : j = idx
    · subst hj; simp [hidx, hv]
    · simp [hj]
  rw [hset, Finset.card_insert_of_not_mem]
  simp [hz]

theorem resolved_count_le (d : Nat → Int) (m : Nat) : resolved_count d m ≤ m := by
  unfold resolved_count
  calc ((Finset.range m).filter fun j => d j ≠ 0).card ≤ (Finset.range m).card :=
        Finset.card_filter_le _ _
    _ = m := Finset.card_range m

theorem resolved_count_lt (d : Nat → Int) (m j : Nat) (hj : j < m) (hz : d j = 0) :
    resolved_count d m < m := by
  unfold resolved_count
  have hsub : ((Finset.range m).filter fun j => d j ≠ 0) ⊆ (Finset.range m).erase j := by
    intro k hk
    simp only [Finset.mem_filter, Finset.mem_range] at hk
    simp only [Finset.mem_erase, Finset.mem_range]
    refine ⟨?_, hk.1⟩
    rintro rfl
    exact hk.2 hz
  have h1 := Finset.card_le_card hsub
  rw [Finset.card_erase_of_mem (Finset.mem_range.mpr hj), Finset.card_range] at h1
  omega

theorem DstInv.trans {isdsts : Nat → Bool} {m : Nat} {s0 s1 s2 : DstState}
    (h1 : DstInv isdsts m s0 s1) (h2 : DstInv isdsts m s1 s2) : DstInv isdsts m s0 s2 where
  keep_std j hj := by rw [h2.keep_std j hj, h1.keep_std j hj]
  keep_set j hj := by
    have := h1.keep_set j hj
    rw [h2.keep_set j (by rw [this]; exact hj), this]
  found_le := h2.found_le

theorem dstoff_body_inv (trans_idx : Nat → Nat) (utcoffs : Nat → Int) (isdsts : Nat → Bool)
    (m i : Nat) (s : DstState) (hidx : trans_idx i < m)
    (hs : s.dst_found ≤ resolved_count s.dstoffs m) :
    DstInv isdsts m s (dstoff_body trans_idx utcoffs isdsts m i s) := by
  rcases dstoff_body_cases trans_idx utcoffs isdsts m i s with h | ⟨v, hv, hd, hz, h⟩
  · rw [h]; exact ⟨fun _ _ => rfl, fun _ _ => rfl, hs⟩
  · rw [h]
    refine ⟨?_, ?_, ?_⟩
    · intro j hj
      have : j ≠ trans_idx i := by rintro rfl; rw [hd] at hj; cases hj
      simp [Function.update_apply, this]
    · intro j hj
      have : j ≠ trans_idx i := by rintro rfl; exact hj hz
      simp [Function.update_apply, this]
    · simp only
      rw [resolved_count_update _ _ _ _ hidx hz hv]
      omega

theorem dstoff_loop_inv (trans_idx : Nat → Nat) (utcoffs : Nat → Int) (isdsts : Nat → Bool)
    (m c : Nat) : ∀ (count i : Nat) (s : DstState),
    (∀ k, i ≤ k → k < i + count → trans_idx k < m) →
    s.dst_found ≤ resolved_count s.dstoffs m →
    DstInv isdsts m s (dstoff_loop trans_idx utcoffs isdsts m c count i s) := by
  intro count
  induction count with
  | zero => intro i s _ hs; exact ⟨fun _ _ => rfl, fun _ _ => rfl, hs⟩
  | succ count ih =>
    intro i s hv hs
    rw [dstoff_loop]
    split_ifs with hb
    · exact ⟨fun _ _ => rfl, fun _ _ => rfl, hs⟩
    · have h1 := dstoff_body_inv trans_idx utcoffs isdsts m i s (hv i le_rfl (by omega)) hs
      exact h1.trans (ih (i + 1) _ (fun k hk1 hk2 => hv k (by omega) (by omega)) h1.found_le)

/-- The main loop run for `a + b` iterations is the loop run for `a`
iterations followed by the loop run for `b` more: the state after the first
`a` iterations is the state in which the pass reaches transition `i + a`. -/
theorem dstoff_loop_add (trans_idx : Nat → Nat) (utcoffs : Nat → Int) (isdsts : Nat → Bool)
    (m c : Nat) : ∀ (a b i : Nat) (s : DstState),
    dstoff_loop trans_idx utcoffs isdsts m c (a + b) i s =
      dstoff_loop trans_idx utcoffs isdsts m c b (i + a)
        (dstoff_loop trans_idx utcoffs isdsts m c a i s) := by
  intro a
  induction a with
  | zero => intro b i s; simp [dstoff_loop]
  | succ a ih =>
    intro b i s
    rw [show a + 1 + b = (a + b) + 1 by omega, dstoff_loop, dstoff_loop]
    split_ifs with hb
    · cases b with
      | zero => rfl
      | succ b => rw [dstoff_loop, if_pos hb]
    · rw [ih, show i + 1 + a = i + (a + 1) by omega]

theorem dstoff_default_loop_apply (isdsts : Nat → Bool) :
    ∀ (count idx : Nat) (d : Nat → Int) (j : Nat),
    dstoff_default_loop isdsts count idx d j =
      if idx ≤ j ∧ j < idx + count ∧ isdsts j = true ∧ d j = 0 then 3600 else d j := by
  intro count
  induction count with
  | zero =>
    intro idx d j
    rw [dstoff_default_loop, if_neg]
    rintro ⟨a, b, _⟩
    omega
  | succ count ih =>
    intro idx d j
    rw [dstoff_default_loop, ih]
    by_cases hj : j = idx
    · subst hj
      have hnot : ∀ d' : Nat → Int,
          ¬ (j + 1 ≤ j ∧ j < j + 1 + count ∧ isdsts j = true ∧ d' j = 0) := by
        rintro d' ⟨a, _⟩; omega
      rw [if_neg (hnot _)]
      by_cases h : isdsts j = true ∧ d j = 0
      · rw [if_pos h, if_pos ⟨le_rfl, by omega, h⟩]; simp
      · rw [if_neg h, if_neg (fun hc => h hc.2.2)]
    · have hupd : (if isdsts idx = true ∧ d idx = 0 then Function.update d idx 3600 else d) j
          = d j := by
        split_ifs
        · simp [Function.update_apply, hj]
        · rfl
      rw [hupd]
      have hiff : (idx + 1 ≤ j ∧ j < idx + 1 + count ∧ isdsts j = true ∧ d j = 0) ↔
          (idx ≤ j ∧ j < idx + (count + 1) ∧ isdsts j = true ∧ d j = 0) := by
        constructor
        · rintro ⟨a, b, c⟩; exact ⟨by omega, by omega, c⟩
        · rintro ⟨a, b, c⟩; exact ⟨by omega, by omega, c⟩
      simp only [hiff]

/-- C4. For transition indices that are all below `num_ttinfos` and a zeroed
`dstoffs` (as `load_data` passes it), after `utcoff_to_dstoff` the DST offset of
every ttinfo is nonzero exactly when the ttinfo is flagged DST, whatever the
memory beyond the arrays holds. -/
theorem utcoff_to_dstoff_nonzero_iff_isdst (trans_idx : Nat → Nat) (utcoffs dstoffs : Nat → Int)
    (isdsts : Nat → Bool) (num_transitions num_ttinfos : Nat)
    (hvalid : ValidIndices trans_idx num_transitions num_ttinfos)
    (hzero : ∀ j, j < num_ttinfos → dstoffs j = 0) :
    ∀ i, i < num_ttinfos →
      (utcoff_to_dstoff trans_idx utcoffs dstoffs isdsts num_transitions num_ttinfos i ≠ 0 ↔
        isdsts i = true) := by
  intro i hi
  have inv := dstoff_loop_inv trans_idx utcoffs isdsts num_ttinfos (dst_count_loop num_ttinfos 0 0)
    (num_transitions - 1) 1 { dstoffs := dstoffs, dst_found := 0 }
    (fun k _ hk => hvalid k (by omega)) (Nat.zero_le _)
  unfold utcoff_to_dstoff
  simp only [dst_count_loop_eq, Nat.zero_add] at inv ⊢
  generalize dstoff_loop trans_idx utcoffs isdsts num_ttinfos num_ttinfos (num_transitions - 1) 1
    { dstoffs := dstoffs, dst_found := 0 } = s at inv ⊢
  have hstd : isdsts i = false → s.dstoffs i = 0 := fun h => by
    rw [inv.keep_std i h]; exact hzero i hi
  split_ifs with hlt
  · rw [dstoff_default_loop_apply]
    cases hb : isdsts i with
    | false =>
      have : ¬ (0 ≤ i ∧ i < 0 + num_ttinfos ∧ false = true ∧ s.dstoffs i = 0) := by simp
      rw [if_neg this]
      simp [hstd hb]
    | true =>
      by_cases hz : s.dstoffs i = 0
      · rw [if_pos ⟨Nat.zero_le _, by omega, rfl, hz⟩]; simp
      · rw [if_neg (fun hc => hz hc.2.2.2)]; simp [hz]
  · have hne : s.dstoffs i ≠ 0 := by
      intro hz
      have := resolved_count_lt s.dstoffs num_ttinfos i hi hz
      have := inv.found_le
      omega
    constructor
    · intro _
      cases hb : isdsts i with
      | false => exact absurd (hstd hb) hne
      | true => rfl
    · intro _; exact hne

/-- C4 at two transitions on a standard ttinfo (offset 0) and a DST ttinfo
(offset 3600): the standard one keeps the DST offset 0, the DST one does not. -/
theorem utcoff_to_dstoff_nonzero_iff_isdst_witness :
    ValidIndices (mem_of [0, 1] fun _ => 0) 2 2 ∧
    ¬ (utcoff_to_dstoff (mem_of [0, 1] fun _ => 0) (mem_of [0, 3600] fun _ => 0) (fun _ => 0)
        (mem_of [false, true] fun _ => false) 2 2 0 ≠ 0) ∧
    utcoff_to_dstoff (mem_of [0, 1] fun _ => 0) (mem_of [0, 3600] fun _ => 0) (fun _ => 0)
        (mem_of [false, true] fun _ => false) 2 2 1 ≠ 0 :=
  ⟨by decide,
   fun h => absurd ((utcoff_to_dstoff_nonzero_iff_isdst _ _ _ _ 2 2 (by decide) (fun _ _ => rfl)
      0 (by decide)).mp h) (by decide),
   (utcoff_to_dstoff_nonzero_iff_isdst (mem_of [0, 1] fun _ => 0) (mem_of [0, 3600] fun _ => 0)
      (fun _ => 0) (mem_of [false, true] fun _ => false) 2 2 (by decide) (fun _ _ => rfl)
      1 (by decide)).mpr (by decide)⟩

/-- C5. When transition `i ≥ 1` lands on a DST ttinfo whose offset is still 0
as the pass reaches `i`, and the ttinfo of transition `i - 1` is not DST and
has another UTC offset, then `utcoff_to_dstoff` leaves the difference of the
two UTC offsets as the DST offset of that ttinfo. -/
theorem utcoff_to_dstoff_from_preceding (trans_idx : Nat → Nat) (utcoffs dstoffs : Nat → Int)
    (isdsts : Nat → Bool) (num_transitions num_ttinfos i : Nat)
    (hvalid : ValidIndices trans_idx num_transitions num_ttinfos)
    (hi : 1 ≤ i) (hin : i < num_transitions)
    (hdst : isdsts (trans_idx i) = true)
    (hopen : (dstoff_state_at trans_idx utcoffs dstoffs isdsts num_ttinfos i).dstoffs
      (trans_idx i) = 0)
    (hstd : isdsts (trans_idx (i - 1)) = false)
    (hne : utcoffs (trans_idx i) ≠ utcoffs (trans_idx (i - 1))) :
    utcoff_to_dstoff trans_idx utcoffs dstoffs isdsts num_transitions num_ttinfos (trans_idx i) =
      utcoffs (trans_idx i) - utcoffs (trans_idx (i - 1)) := by
  have hv : utcoffs (trans_idx i) - utcoffs (trans_idx (i - 1)) ≠ 0 := sub_ne_zero.mpr hne
  -- the state in which the pass reaches `i`
  have inv0 := dstoff_loop_inv trans_idx utcoffs isdsts num_ttinfos
    (dst_count_loop num_ttinfos 0 0) (i - 1) 1 { dstoffs := dstoffs, dst_found := 0 }
    (fun k _ hk => hvalid k (by omega)) (Nat.zero_le _)
  have hsplit := dstoff_loop_add trans_idx utcoffs isdsts num_ttinfos
    (dst_count_loop num_ttinfos 0 0) (i - 1) (num_transitions - 1 - i + 1) 1
    { dstoffs := dstoffs, dst_found := 0 }
  rw [show i - 1 + (num_transitions - 1 - i + 1) = num_transitions - 1 by omega,
    show 1 + (i - 1) = i by omega] at hsplit
  unfold dstoff_state_at at hopen
  unfold utcoff_to_dstoff
  simp only [hsplit]
  simp only [dst_count_loop_eq, Nat.zero_add] at inv0 hopen ⊢
  generalize dstoff_loop trans_idx utcoffs isdsts num_ttinfos num_ttinfos (i - 1) 1
    { dstoffs := dstoffs, dst_found := 0 } = st at inv0 hopen ⊢
  have hr : trans_idx i < num_ttinfos := hvalid i hin
  have hfound : st.dst_found < num_ttinfos :=
    lt_of_le_of_lt inv0.found_le (resolved_count_lt st.dstoffs num_ttinfos _ hr hopen)
  -- the iteration for `i` stores the difference
  have hbody : dstoff_body trans_idx utcoffs isdsts num_ttinfos i st =
      { dstoffs := Function.update st.dstoffs (trans_idx i)
          (utcoffs (trans_idx i) - utcoffs (trans_idx (i - 1))),
        dst_found := st.dst_found + 1 } := by
    unfold dstoff_body
    have h1 : ¬ (isdsts (trans_idx i) = false ∨ st.dstoffs (trans_idx i) ≠ 0) := by
      rw [hdst, hopen]; simp
    simp only [if_neg h1, if_pos hstd]
    rw [if_neg (fun hc => hv hc.1), if_pos hv]
  have hbinv := dstoff_body_inv trans_idx utcoffs isdsts num_ttinfos i st hr inv0.found_le
  have hloop : dstoff_loop trans_idx utcoffs isdsts num_ttinfos num_ttinfos
      (num_transitions - 1 - i + 1) i st =
      dstoff_loop trans_idx utcoffs isdsts num_ttinfos num_ttinfos (num_transitions - 1 - i) (i + 1)
        { dstoffs := Function.update st.dstoffs (trans_idx i)
            (utcoffs (trans_idx i) - utcoffs (trans_idx (i - 1))),
          dst_found := st.dst_found + 1 } := by
    rw [dstoff_loop, if_neg (show ¬ num_ttinfos = st.dst_found by omega), hbody]
  rw [hloop]
  rw [hbody] at hbinv
  -- the later iterations and the last loop keep it
  have inv1 := dstoff_loop_inv trans_idx utcoffs isdsts num_ttinfos num_ttinfos
    (num_transitions - 1 - i) (i + 1) _ (fun k _ hk => hvalid k (by omega)) hbinv.found_le
  have hkeep := inv1.keep_set (trans_idx i) (by simpa using hv)
  simp only [Function.update_same] at hkeep
  generalize dstoff_loop trans_idx utcoffs isdsts num_ttinfos num_ttinfos
    (num_transitions - 1 - i) (i + 1) _ = s at hkeep ⊢
  split_ifs
  · rw [dstoff_default_loop_apply, if_neg (fun hc => hv (hkeep ▸ hc.2.2.2)), hkeep]
  · exact hkeep

/-- The example of C5: ttinfo A (standard, offset 0) followed by ttinfo B (DST,
offset 3600) gives B the DST offset 3600. -/
theorem utcoff_to_dstoff_from_preceding_witness :
    utcoff_to_dstoff (mem_of [0, 1] fun _ => 0) (mem_of [0, 3600] fun _ => 0) (fun _ => 0)
      (mem_of [false, true] fun _ => false) 2 2 1 = 3600 :=
  utcoff_to_dstoff_from_preceding (mem_of [0, 1] fun _ => 0) (mem_of [0, 3600] fun _ => 0)
    (fun _ => 0) (mem_of [false, true] fun _ => false) 2 2 1 (by decide)
    (by decide) (by decide) (by decide) (by decide) (by decide) (by decide)

/-- C6, at the input with two DST-only transitions on ttinfo 0 (DST, offset 0)
and an unused standard ttinfo 1 (offset 100): no transition on ttinfo 0 has a
standard neighbour, yet the last iteration reads `trans_idx[2]`, beyond the two
transitions, and the DST offset of ttinfo 0 is -100 when that cell holds 1 and
3600 when it holds 0. -/
theorem utcoff_to_dstoff_default_depends_on_cell_past_end :
    (∀ i, i < 2 → (mem_of [0, 0] fun _ => 1) i = (mem_of [0, 0] fun _ => 0) i) ∧
    utcoff_to_dstoff (mem_of [0, 0] fun _ => 1) (mem_of [0, 100] fun _ => 0) (fun _ => 0)
      (mem_of [true, false] fun _ => false) 2 2 0 = -100 ∧
    utcoff_to_dstoff (mem_of [0, 0] fun _ => 0) (mem_of [0, 100] fun _ => 0) (fun _ => 0)
      (mem_of [true, false] fun _ => false) 2 2 0 = 3600 := by
  decide

end ZoneInfo

namespace ZoneInfo

/-! ## Facts about `_bisect` -/

theorem Nondecreasing.le {arr : Nat → Int} {n : Nat} (h : Nondecreasing arr n) :
    ∀ i j, i ≤ j → j < n → arr i ≤ arr j := by
  intro i j hij
  induction j with
  | zero =>
    intro _
    have : i = 0 := by omega
    rw [this]
  | succ j ih =>
    intro hj
    rcases Nat.eq_or_lt_of_le hij with heq | hlt
    · rw [heq]
    · exact le_trans (ih (by omega) (by omega)) (h j (by omega))

theorem StrictlyIncreasing.nondecreasing {arr : Nat → Int} {n : Nat}
    (h : StrictlyIncreasing arr n) : Nondecreasing arr n :=
  fun i hi => le_of_lt (h i hi)

/-- The bound on the iterations does not matter once it is at least `hi - lo`:
the loop of `_bisect` ends by itself within `hi - lo` iterations. -/
theorem bisect_loop_fuel (value : Int) (arr : Nat → Int) :
    ∀ (fuel fuel2 lo hi : Nat), hi - lo ≤ fuel → hi - lo ≤ fuel2 →
      bisect_loop value arr fuel lo hi = bisect_loop value arr fuel2 lo hi := by
  intro fuel
  induction fuel with
  | zero =>
    intro fuel2 lo hi h1 _
    cases fuel2 with
    | zero => rfl
    | succ f => rw [bisect_loop, bisect_loop, if_neg (by omega)]
  | succ fuel ih =>
    intro fuel2 lo hi h1 h2
    cases fuel2 with
    | zero => rw [bisect_loop, bisect_loop, if_neg (by omega)]
    | succ f =>
      rw [bisect_loop, bisect_loop]
      dsimp only
      split_ifs with hlt hgt
      · exact ih f lo ((lo + hi) / 2) (by omega) (by omega)
      · exact ih f ((lo + hi) / 2 + 1) hi (by omega) (by omega)
      · rfl

/-- The loop of `_bisect` on a nondecreasing array keeps the entries before
`lo` at most `value` and the entries from `hi` on above `value`. -/
theorem bisect_loop_spec (value : Int) (arr : Nat → Int) (size : Nat)
    (hmono : Nondecreasing arr size) :
    ∀ (fuel lo hi : Nat), hi - lo ≤ fuel → lo ≤ hi → hi ≤ size →
      (∀ j, j < lo → arr j ≤ value) → (∀ j, hi ≤ j → j < size → value < arr j) →
      lo ≤ bisect_loop value arr fuel lo hi ∧ bisect_loop value arr fuel lo hi ≤ hi ∧
      (∀ j, j < bisect_loop value arr fuel lo hi → arr j ≤ value) ∧
      (∀ j, bisect_loop value arr fuel lo hi ≤ j → j < size → value < arr j) := by
  intro fuel
  induction fuel with
  | zero =>
    intro lo hi hf hle _ hlo hhi
    have : lo = hi := by omega
    subst this
    exact ⟨le_rfl, le_rfl, hlo, hhi⟩
  | succ fuel ih =>
    intro lo hi hf hle hsz hlo hhi
    rw [bisect_loop]
    dsimp only
    split_ifs with hlt hgt
    · have := ih lo ((lo + hi) / 2) (by omega) (by omega) (by omega) hlo
        (fun j hj1 hj2 => lt_of_lt_of_le hgt (hmono.le _ j hj1 hj2))
      exact ⟨this.1, by omega, this.2.2⟩
    · have := ih ((lo + hi) / 2 + 1) hi (by omega) (by omega) hsz
        (fun j hj => le_trans (hmono.le j _ (by omega) (by omega)) (not_lt.mp hgt)) hhi
      exact ⟨by omega, this.2⟩
    · have : lo = hi := by omega
      subst this
      exact ⟨le_rfl, le_rfl, hlo, hhi⟩

theorem bisect_spec (value : Int) (arr : Nat → Int) (size : Nat)
    (hmono : Nondecreasing arr size) :
    _bisect value arr size ≤ size ∧
    (∀ j, j < _bisect value arr size → arr j ≤ value) ∧
    (∀ j, _bisect value arr size ≤ j → j < size → value < arr j) := by
  have := bisect_loop_spec value arr size hmono size 0 size (by omega) (Nat.zero_le _) le_rfl
    (fun j hj => absurd hj (Nat.not_lt_zero j)) (fun j h1 h2 => absurd h2 (by omega))
  exact this.2

/-- On a nondecreasing array, `_bisect` returns `k + 1` for a value that is at
least entry `k` and below entry `k + 1`. -/
theorem bisect_between (value : Int) (arr : Nat → Int) (size k : Nat)
    (hmono : Nondecreasing arr size) (hk : k + 1 < size)
    (h1 : arr k ≤ value) (h2 : value < arr (k + 1)) : _bisect value arr size = k + 1 := by
  obtain ⟨_, hlow, hhigh⟩ := bisect_spec value arr size hmono
  by_contra hne
  rcases Nat.lt_or_gt_of_ne hne with hlt | hgt
  · exact absurd (hhigh k (by omega) (by omega)) (not_lt.mpr h1)
  · exact absurd (hlow (k + 1) hgt) (not_le.mpr h2)

/-- On a nondecreasing array, `_bisect` returns `size` for a value that is at
least the last entry. -/
theorem bisect_last (value : Int) (arr : Nat → Int) (size : Nat)
    (hmono : Nondecreasing arr size) (hn : 1 ≤ size)
    (h1 : arr (size - 1) ≤ value) : _bisect value arr size = size := by
  obtain ⟨hle, _, hhigh⟩ := bisect_spec value arr size hmono
  by_contra hne
  exact absurd (hhigh (size - 1) (by omega) (by omega)) (not_lt.mpr h1)

theorem size_sub_of_le (a b : Nat) (h : b ≤ a) : size_sub a b = a - b := by
  unfold size_sub; rw [if_pos h]

theorem uint_sub_of_le (a b : Nat) (h : b ≤ a) : uint_sub a b = a - b := by
  unfold uint_sub; rw [if_pos h]

end ZoneInfo

namespace ZoneInfo

/-! ## `zoneinfo_fromutc` -/

theorem StrictlyIncreasing.first_le {arr : Nat → Int} {n : Nat} (h : StrictlyIncreasing arr n)
    (j : Nat) (hj : j < n) : arr 0 ≤ arr j :=
  h.nondecreasing.le 0 j (Nat.zero_le _) hj

/-- When the end of `zoneinfo_fromutc` returns a datetime, it is the sum, with
the fold. -/
theorem fromutc_result_ok (t : Int) (cur : _ttinfo) (fold g : Fin 2) (o l : Int)
    (ho : cur.utcoff = some o) (h : fromutc_result t (some cur) fold = .ok (l, g)) :
    l = t + o ∧ g = fold := by
  simp only [fromutc_result, ho] at h
  split_ifs at h
  injection h with h
  injection h with h1 h2
  exact ⟨h1.symm, h2.symm⟩

/-- Before the first transition `zoneinfo_fromutc` takes `ttinfo_before` as
`tti` and leaves the fold 0. -/
theorem fromutc_before_eq (self : PyZoneInfo_ZoneInfo) (t : Int)
    (hn : 1 ≤ self.num_transitions) (ht : t < self.trans_list_utc 0) :
    zoneinfo_fromutc self t = fromutc_result t self.ttinfo_before 0 := by
  unfold zoneinfo_fromutc
  simp only [if_pos (show self.num_transitions ≥ 1 ∧ t < self.trans_list_utc 0 from ⟨hn, ht⟩)]

/-- Between transition `k` and transition `k + 1` of strictly increasing UTC
transitions, `zoneinfo_fromutc` takes the ttinfo of transition `k` as `tti`
and the one before it (`ttinfo_before` for `k = 0`) as `tti_prev`. -/
theorem fromutc_between (self : PyZoneInfo_ZoneInfo) (t : Int) (k : Nat) (cur prev : _ttinfo)
    (hinc : StrictlyIncreasing self.trans_list_utc self.num_transitions)
    (hk : k + 1 < self.num_transitions)
    (h1 : self.trans_list_utc k ≤ t) (h2 : t < self.trans_list_utc (k + 1))
    (hcur : self.trans_ttinfos k = some cur)
    (hprev : (if k = 0 then self.ttinfo_before else self.trans_ttinfos (k - 1)) = some prev) :
    zoneinfo_fromutc self t = fromutc_result t (some cur)
      (if prev.utcoff_seconds - cur.utcoff_seconds > t - self.trans_list_utc k then 1 else 0) := by
  have hmono := hinc.nondecreasing
  have hb := bisect_between t self.trans_list_utc self.num_transitions k hmono hk h1 h2
  have h0 : ¬ (self.num_transitions ≥ 1 ∧ t < self.trans_list_utc 0) := by
    rintro ⟨_, hc⟩
    exact absurd (lt_of_lt_of_le hc (hinc.first_le k (by omega))) (not_lt.mpr h1)
  have hlast : ¬ ((self.num_transitions = 0 ∨
      t > self.trans_list_utc (size_sub self.num_transitions 1)) ∧
      TZRULE_STATIC self.tzrule_after = false) := by
    rintro ⟨hc | hc, _⟩
    · omega
    · rw [size_sub_of_le _ _ (by omega)] at hc
      have := hmono.le (k + 1) (self.num_transitions - 1) (by omega) (by omega)
      exact absurd (lt_of_lt_of_le h2 this) (not_lt.mpr (le_of_lt hc))
  unfold zoneinfo_fromutc
  simp only [if_neg h0, if_neg hlast, if_neg (show ¬ self.num_transitions = 0 by omega), hb]
  rw [size_sub_of_le (k + 1) 1 (by omega), Nat.add_sub_cancel]
  by_cases hk0 : k = 0
  · subst hk0
    rw [if_pos rfl] at hprev
    simp only [if_neg (show ¬ (0 + 1 ≥ 2) by omega),
      if_neg (show ¬ (0 + 1 = self.num_transitions) by omega), hprev, hcur]
  · rw [if_neg hk0] at hprev
    simp only [if_pos (show k + 1 ≥ 2 by omega)]
    rw [size_sub_of_le (k + 1) 2 (by omega), show k + 1 - 2 = k - 1 by omega]
    simp only [hprev, hcur]

/-- The claim C7 fails at the instant of the last transition: in the example
table with a tail rule that is not static, `zoneinfo_fromutc` at 2000000, the
last transition, returns a local time and raises nothing. -/
theorem fromutc_at_last_transition_no_error :
    TZRULE_STATIC (example_table (some ⟨1⟩)).tzrule_after = false ∧
    (example_table (some ⟨1⟩)).trans_list_utc ((example_table (some ⟨1⟩)).num_transitions - 1)
      ≤ 2000000 ∧
    zoneinfo_fromutc (example_table (some ⟨1⟩)) 2000000 = .ok (1996400, 0) := by
  decide

/-- C7, amended. For strictly increasing UTC transitions, a tail rule that
is not static and an instant `t` after the last transition,
`zoneinfo_fromutc` raises `NotImplementedError`. -/
theorem fromutc_after_last_not_static (self : PyZoneInfo_ZoneInfo) (t : Int)
    (hinc : StrictlyIncreasing self.trans_list_utc self.num_transitions)
    (hn : 1 ≤ self.num_transitions)
    (hrule : TZRULE_STATIC self.tzrule_after = false)
    (ht : t > self.trans_list_utc (self.num_transitions - 1)) :
    zoneinfo_fromutc self t = .error .NotImplementedError := by
  have h0 : ¬ (self.num_transitions ≥ 1 ∧ t < self.trans_list_utc 0) := by
    rintro ⟨_, hc⟩
    have := hinc.first_le (self.num_transitions - 1) (by omega)
    exact absurd (lt_of_lt_of_le hc this) (not_lt.mpr (le_of_lt ht))
  unfold zoneinfo_fromutc
  simp only [if_neg h0]
  rw [if_pos]
  refine ⟨Or.inr ?_, hrule⟩
  rw [size_sub_of_le _ _ hn]
  exact ht

/-- C7, amended, in the example table with a tail rule that is not static:
2000001 is after the last transition. -/
theorem fromutc_after_last_not_static_witness :
    zoneinfo_fromutc (example_table (some ⟨1⟩)) 2000001 = .error .NotImplementedError :=
  fromutc_after_last_not_static (example_table (some ⟨1⟩)) 2000001 (by decide) (by decide)
    (by decide) (by decide)

/-- The first branch of `find_ttinfo`. -/
theorem find_ttinfo_first_branch (self : PyZoneInfo_ZoneInfo) (ts : Int) (fold : Fin 2)
    (wall : Nat → Int) (hwall : self.trans_list_wall fold = some wall) (hts : ts < wall 0) :
    find_ttinfo self ts fold = .ok self.ttinfo_before := by
  unfold find_ttinfo
  simp only [hwall, if_pos hts]

/-- The last branch of `find_ttinfo` on a nondecreasing array: the ttinfo of the
greatest transition index whose entry is at most `ts`. -/
theorem find_ttinfo_at_index (self : PyZoneInfo_ZoneInfo) (ts : Int) (fold : Fin 2)
    (wall : Nat → Int) (j : Nat)
    (hn : 1 ≤ self.num_transitions)
    (hwall : self.trans_list_wall fold = some wall)
    (hmono : Nondecreasing wall self.num_transitions)
    (hfirst : wall 0 ≤ ts) (hlast : ts < wall (self.num_transitions - 1))
    (hj : j < self.num_transitions) (hle : wall j ≤ ts)
    (hmax : ∀ i, i < self.num_transitions → wall i ≤ ts → i ≤ j) :
    find_ttinfo self ts fold = .ok (self.trans_ttinfos j) := by
  obtain ⟨hsz, hlow, hhigh⟩ := bisect_spec ts wall self.num_transitions hmono
  have hjr : j < _bisect ts wall self.num_transitions := by
    by_contra hc
    exact absurd (hhigh j (not_lt.mp hc) hj) (not_lt.mpr hle)
  have hrj : _bisect ts wall self.num_transitions - 1 ≤ j :=
    hmax _ (by omega) (hlow _ (by omega))
  have hidx : size_sub (_bisect ts wall self.num_transitions) 1 = j := by
    rw [size_sub_of_le _ _ (by omega)]; omega
  unfold find_ttinfo
  simp only [hwall]
  rw [if_neg (not_lt.mpr hfirst), uint_sub_of_le _ _ hn, if_neg (not_lt.mpr (le_of_lt hlast)),
    hidx]

/-- C9. With at least one transition, a nondecreasing array
`trans_list_wall[fold]` and a local timestamp `ts` from the first entry on and
below the last one, `find_ttinfo` returns the ttinfo of the greatest transition
index `j` whose entry in that array is at most `ts`; `utcoffset`, `dst` and
`tzname` return its fields. -/
theorem find_ttinfo_inside (self : PyZoneInfo_ZoneInfo) (ts : Int) (fold : Fin 2)
    (wall : Nat → Int) (j : Nat)
    (hn : 1 ≤ self.num_transitions)
    (hwall : self.trans_list_wall fold = some wall)
    (hmono : Nondecreasing wall self.num_transitions)
    (hfirst : wall 0 ≤ ts) (hlast : ts < wall (self.num_transitions - 1))
    (hj : j < self.num_transitions) (hle : wall j ≤ ts)
    (hmax : ∀ i, i < self.num_transitions → wall i ≤ ts → i ≤ j) :
    find_ttinfo self ts fold = .ok (self.trans_ttinfos j) ∧
    zoneinfo_utcoffset self ts fold = return_field (self.trans_ttinfos j) (fun t => t.utcoff) ∧
    zoneinfo_dst self ts fold = return_field (self.trans_ttinfos j) (fun t => t.dstoff) ∧
    zoneinfo_tzname self ts fold = return_field (self.trans_ttinfos j) (fun t => t.tzname) := by
  have hfind := find_ttinfo_at_index self ts fold wall j hn hwall hmono hfirst hlast hj hle hmax
  refine ⟨hfind, ?_, ?_, ?_⟩
  · unfold zoneinfo_utcoffset; rw [hfind]
  · unfold zoneinfo_dst; rw [hfind]
  · unfold zoneinfo_tzname; rw [hfind]

/-- C9 in the example table: for fold 0 the local transitions are 996400 and
1996400, for fold 1 they are 992800 and 1992800. The local time 995000 is
before the first transition of the fold 0 array and therefore not in its
range, and in the range of the fold 1 array, where `find_ttinfo` with fold 1
returns the ttinfo of transition 0. -/
theorem find_ttinfo_inside_witness :
    find_ttinfo (example_table none) 995000 1 = .ok (some tti_b) ∧
    zoneinfo_utcoffset (example_table none) 995000 1 = .ok (some (-7200)) ∧
    zoneinfo_dst (example_table none) 995000 1 = .ok (some 0) ∧
    zoneinfo_tzname (example_table none) 995000 1 = .ok (some "B") :=
  find_ttinfo_inside (example_table none) 995000 1 (mem_of [992800, 1992800] fun _ => 0) 0
    (by decide) rfl (by decide) (by decide) (by decide) (by decide) (by decide) (by decide)

/-- C10. For a local timestamp `ts` before the first entry of
`trans_list_wall[fold]` of a table with at least one transition, `find_ttinfo`
returns `ttinfo_before`. -/
theorem find_ttinfo_before_first (self : PyZoneInfo_ZoneInfo) (ts : Int) (fold : Fin 2)
    (wall : Nat → Int) (hn : 1 ≤ self.num_transitions)
    (hwall : self.trans_list_wall fold = some wall) (hts : ts < wall 0) :
    find_ttinfo self ts fold = .ok self.ttinfo_before := by
  have _ := hn
  exact find_ttinfo_first_branch self ts fold wall hwall hts

/-- C10 in the example table: the local time 995000 is before the first
entry 996400 of the fold 0 array. -/
theorem find_ttinfo_before_first_witness :
    find_ttinfo (example_table none) 995000 0 = .ok (some tti_a) :=
  find_ttinfo_before_first (example_table none) 995000 0 (mem_of [996400, 1996400] fun _ => 0)
    (by decide) rfl (by decide)

end ZoneInfo

namespace ZoneInfo

/-! ## `ts_to_local` -/

theorem swap_fst (a b : Int) : (if b > a then (b, a) else (a, b) : Int × Int).1 = max a b := by
  split_ifs with h
  · exact (max_eq_right (le_of_lt h)).symm
  · exact (max_eq_left (not_lt.mp h)).symm

theorem swap_snd (a b : Int) : (if b > a then (b, a) else (a, b) : Int × Int).2 = min a b := by
  split_ifs with h
  · exact (min_eq_left (le_of_lt h)).symm
  · exact (min_eq_right (not_lt.mp h)).symm

/-- The loop of `ts_to_local` adds, at every index it visits, the greater of
the two offsets to the fold 0 array and the smaller one to the fold 1 array. -/
theorem ts_to_local_loop_apply (trans_idx : Nat → Nat) (utcoff : Nat → Int) :
    ∀ (count i : Nat) (w : (Nat → Int) × (Nat → Int)) (j : Nat),
    (ts_to_local_loop trans_idx utcoff count i w).1 j =
      (if i ≤ j ∧ j < i + count then
        w.1 j + max (utcoff (trans_idx (j - 1))) (utcoff (trans_idx j)) else w.1 j) ∧
    (ts_to_local_loop trans_idx utcoff count i w).2 j =
      (if i ≤ j ∧ j < i + count then
        w.2 j + min (utcoff (trans_idx (j - 1))) (utcoff (trans_idx j)) else w.2 j) := by
  intro count
  induction count with
  | zero =>
    intro i w j
    have : ¬ (i ≤ j ∧ j < i + 0) := by omega
    simp only [ts_to_local_loop, if_neg this, and_self]
  | succ count ih =>
    intro i w j
    rw [ts_to_local_loop]
    rw [(ih (i + 1) _ j).1, (ih (i + 1) _ j).2, swap_fst, swap_snd]
    by_cases hj : j = i
    · subst hj
      have h1 : ¬ (j + 1 ≤ j ∧ j < j + 1 + count) := by omega
      have h2 : j ≤ j ∧ j < j + (count + 1) := by omega
      simp only [if_neg h1, if_pos h2, Function.update_same, and_self]
    · by_cases hr : i + 1 ≤ j ∧ j < i + 1 + count
      · have h2 : i ≤ j ∧ j < i + (count + 1) := by omega
        simp only [if_pos hr, if_pos h2, Function.update_noteq hj, and_self]
      · have h2 : ¬ (i ≤ j ∧ j < i + (count + 1)) := by omega
        simp only [if_neg hr, if_neg h2, Function.update_noteq hj, and_self]

/-- The two arrays that `ts_to_local` produces for at least one transition:
entry `i ≥ 1` is the UTC transition plus the greater (fold 0) or smaller
(fold 1) of the UTC offsets of the ttinfos of transitions `i - 1` and `i`;
entry 0 uses the offsets of ttinfo 0 and of the ttinfo of transition 0 when
there are two or more transitions, and the offset of ttinfo 0 alone when there
is one. -/
theorem ts_to_local_apply (fresh : Fin 2 → Nat → Int) (trans_idx : Nat → Nat)
    (trans_utc utcoff : Nat → Int) (trans_local : Fin 2 → Option (Nat → Int))
    (n : Nat) (hn : 1 ≤ n) :
    ∃ w0 w1 : Nat → Int,
      ts_to_local fresh trans_idx trans_utc utcoff trans_local n 0 = some w0 ∧
      ts_to_local fresh trans_idx trans_utc utcoff trans_local n 1 = some w1 ∧
      (∀ i, 1 ≤ i → i < n →
        w0 i = trans_utc i + max (utcoff (trans_idx (i - 1))) (utcoff (trans_idx i)) ∧
        w1 i = trans_utc i + min (utcoff (trans_idx (i - 1))) (utcoff (trans_idx i))) ∧
      w0 0 = trans_utc 0 +
        (if n > 1 then max (utcoff 0) (utcoff (trans_idx 0)) else utcoff 0) ∧
      w1 0 = trans_utc 0 +
        (if n > 1 then min (utcoff 0) (utcoff (trans_idx 0)) else utcoff 0) := by
  unfold ts_to_local
  rw [if_neg (by omega)]
  dsimp only
  refine ⟨_, _, if_pos rfl, if_neg (by decide), ?_, ?_, ?_⟩
  · intro i hi1 hin
    have hi0 : i ≠ 0 := by omega
    rw [(ts_to_local_loop_apply trans_idx utcoff (n - 1) 1 _ i).1,
      (ts_to_local_loop_apply trans_idx utcoff (n - 1) 1 _ i).2]
    simp only [if_pos (show 1 ≤ i ∧ i < 1 + (n - 1) by omega), Function.update_noteq hi0,
      if_pos hin, and_self]
  · rw [(ts_to_local_loop_apply trans_idx utcoff (n - 1) 1 _ 0).1]
    simp only [if_neg (show ¬ (1 ≤ 0 ∧ 0 < 1 + (n - 1)) by omega), Function.update_same,
      if_pos (show 0 < n by omega)]
    by_cases h1 : n > 1
    · simp only [if_pos h1, swap_fst]
    · simp only [if_neg h1]
  · rw [(ts_to_local_loop_apply trans_idx utcoff (n - 1) 1 _ 0).2]
    simp only [if_neg (show ¬ (1 ≤ 0 ∧ 0 < 1 + (n - 1)) by omega), Function.update_same,
      if_pos (show 0 < n by omega)]
    by_cases h1 : n > 1
    · simp only [if_pos h1, swap_snd]
    · simp only [if_neg h1]

end ZoneInfo

namespace ZoneInfo

/-! ## `load_data` on valid data -/

theorem getElem?_eq_some_getD {α : Type} (xs : List α) (i : Nat) (a : α) (h : i < xs.length) :
    xs[i]? = some (xs.getD i a) := by
  simp [List.getD_eq_getElem?_getD, List.getElem?_eq_getElem h]

theorem load_transitions_loop_ok (d : RawData) (m : Nat)
    (hidx : ∀ j, j < d.trans_idx.length → d.idx j ≤ m) :
    ∀ (count i : Nat) (w : (Nat → Int) × (Nat → Nat)),
    i + count ≤ d.trans_utc.length → i + count ≤ d.trans_idx.length →
    ∃ u x, load_transitions_loop d m count i w = .ok (u, x) ∧
      (∀ j, u j = if i ≤ j ∧ j < i + count then d.utc j else w.1 j) ∧
      (∀ j, x j = if i ≤ j ∧ j < i + count then d.idx j else w.2 j) := by
  intro count
  induction count with
  | zero =>
    intro i w _ _
    refine ⟨w.1, w.2, rfl, fun j => ?_, fun j => ?_⟩ <;>
      rw [if_neg (by omega)]
  | succ count ih =>
    intro i w h1 h2
    obtain ⟨u, x, hok, hu, hx⟩ := ih (i + 1)
      (Function.update w.1 i (d.utc i), Function.update w.2 i (d.idx i)) (by omega) (by omega)
    refine ⟨u, x, ?_, fun j => ?_, fun j => ?_⟩
    · rw [load_transitions_loop, getElem?_eq_some_getD d.trans_utc i 0 (by omega),
        getElem?_eq_some_getD d.trans_idx i 0 (by omega)]
      have := hidx i (by omega)
      unfold RawData.idx at this
      simp only [if_neg (not_lt.mpr this)]
      exact hok
    · rw [hu j]
      by_cases hj : j = i
      · subst hj
        rw [if_neg (by omega), if_pos (by omega)]; simp
      · by_cases hr : i + 1 ≤ j ∧ j < i + 1 + count
        · rw [if_pos hr, if_pos (by omega)]
        · rw [if_neg hr, if_neg (by omega)]; simp [Function.update_noteq hj]
    · rw [hx j]
      by_cases hj : j = i
      · subst hj
        rw [if_neg (by omega), if_pos (by omega)]; simp
      · by_cases hr : i + 1 ≤ j ∧ j < i + 1 + count
        · rw [if_pos hr, if_pos (by omega)]
        · rw [if_neg hr, if_neg (by omega)]; simp [Function.update_noteq hj]

theorem load_ttinfos_loop_ok (d : RawData) :
    ∀ (count i : Nat) (w : (Nat → Int) × (Nat → Bool)),
    i + count ≤ d.utcoff.length → i + count ≤ d.isdst.length →
    ∃ u x, load_ttinfos_loop d count i w = .ok (u, x) ∧
      (∀ j, u j = if i ≤ j ∧ j < i + count then d.off j else w.1 j) ∧
      (∀ j, x j = if i ≤ j ∧ j < i + count then d.isdst.getD j true else w.2 j) := by
  intro count
  induction count with
  | zero =>
    intro i w _ _
    refine ⟨w.1, w.2, rfl, fun j => ?_, fun j => ?_⟩ <;>
      rw [if_neg (by omega)]
  | succ count ih =>
    intro i w h1 h2
    obtain ⟨u, x, hok, hu, hx⟩ := ih (i + 1)
      (Function.update w.1 i (d.off i), Function.update w.2 i (d.isdst.getD i true))
      (by omega) (by omega)
    refine ⟨u, x, ?_, fun j => ?_, fun j => ?_⟩
    · rw [load_ttinfos_loop, getElem?_eq_some_getD d.utcoff i 0 (by omega),
        getElem?_eq_some_getD d.isdst i true (by omega)]
      exact hok
    · rw [hu j]
      by_cases hj : j = i
      · subst hj
        rw [if_neg (by omega), if_pos (by omega)]; simp
      · by_cases hr : i + 1 ≤ j ∧ j < i + 1 + count
        · rw [if_pos hr, if_pos (by omega)]
        · rw [if_neg hr, if_neg (by omega)]; simp [Function.update_noteq hj]
    · rw [hx j]
      by_cases hj : j = i
      · subst hj
        rw [if_neg (by omega), if_pos (by omega)]; simp
      · by_cases hr : i + 1 ≤ j ∧ j < i + 1 + count
        · rw [if_pos hr, if_pos (by omega)]
        · rw [if_neg hr, if_neg (by omega)]; simp [Function.update_noteq hj]

theorem build_ttinfos_loop_ok (d : RawData) (utcoff dstoff : Nat → Int) :
    ∀ (count i : Nat) (w : Nat → _ttinfo), i + count ≤ d.abbr.length →
    ∃ t, build_ttinfos_loop d utcoff dstoff count i w = .ok t ∧
      (∀ j, t j = if i ≤ j ∧ j < i + count then
        build_ttinfo (utcoff j) (dstoff j) (d.abbr.getD j "") else w j) := by
  intro count
  induction count with
  | zero =>
    intro i w _
    refine ⟨w, rfl, fun j => ?_⟩
    rw [if_neg (by omega)]
  | succ count ih =>
    intro i w h1
    obtain ⟨t, hok, ht⟩ := ih (i + 1)
      (Function.update w i (build_ttinfo (utcoff i) (dstoff i) (d.abbr.getD i ""))) (by omega)
    refine ⟨t, ?_, fun j => ?_⟩
    · rw [build_ttinfos_loop, getElem?_eq_some_getD d.abbr i "" (by omega)]
      exact hok
    · rw [ht j]
      by_cases hj : j = i
      · subst hj
        rw [if_neg (by omega), if_pos (by omega)]; simp
      · by_cases hr : i + 1 ≤ j ∧ j < i + 1 + count
        · rw [if_pos hr, if_pos (by omega)]
        · rw [if_neg hr, if_neg (by omega)]; simp [Function.update_noteq hj]

theorem trans_ttinfos_loop_apply (trans_idx : Nat → Nat) (ttinfos : Nat → _ttinfo) :
    ∀ (count i : Nat) (w : Nat → Option _ttinfo) (j : Nat),
    trans_ttinfos_loop trans_idx ttinfos count i w j =
      if i ≤ j ∧ j < i + count then some (ttinfos (trans_idx j)) else w j := by
  intro count
  induction count with
  | zero =>
    intro i w j
    rw [trans_ttinfos_loop, if_neg (by omega)]
  | succ count ih =>
    intro i w j
    rw [trans_ttinfos_loop, ih]
    by_cases hj : j = i
    · subst hj
      rw [if_neg (by omega), if_pos (by omega)]; simp
    · by_cases hr : i + 1 ≤ j ∧ j < i + 1 + count
      · rw [if_pos hr, if_pos (by omega)]
      · rw [if_neg hr, if_neg (by omega)]; simp [Function.update_noteq hj]

end ZoneInfo

namespace ZoneInfo

/-- On valid data `load_data` succeeds, and the object it fills in is related
to the data as `Built` says. -/
theorem load_data_valid (heap : Heap) (d : RawData) (hv : d.Valid) :
    ∃ self, load_data heap d = .ok self ∧ Built d self := by
  obtain ⟨hlen, hidx, _, hdst, habbr⟩ := hv
  have hidx2 : ∀ j, j < d.trans_idx.length → d.idx j < d.utcoff.length := hidx
  obtain ⟨u, x, hok1, hu, hx⟩ := load_transitions_loop_ok d d.utcoff.length
    (fun j hj => le_of_lt (hidx2 j hj)) d.trans_utc.length 0
    (heap.trans_list_utc, heap.trans_idx) (by omega) (by omega)
  obtain ⟨uo, fl, hok2, huo, hfl⟩ := load_ttinfos_loop_ok d d.utcoff.length 0
    (heap.utcoff, heap.isdst) (by omega) (by omega)
  obtain ⟨tt, hok3, htt⟩ := build_ttinfos_loop_ok d uo
    (utcoff_to_dstoff x uo (fun i => if i < d.utcoff.length then 0 else heap.dstoff i) fl
      d.trans_utc.length d.utcoff.length) d.utcoff.length 0 heap._ttinfos (by omega)
  have hu2 : ∀ j, j < d.trans_utc.length → u j = d.utc j := fun j hj => by
    rw [hu j, if_pos (by omega)]
  have hx2 : ∀ j, j < d.trans_utc.length → x j = d.idx j := fun j hj => by
    rw [hx j, if_pos (by omega)]
  have huo2 : ∀ j, j < d.utcoff.length → uo j = d.off j := fun j hj => by
    rw [huo j, if_pos (by omega)]
  have hfl2 : ∀ j, j < d.utcoff.length → fl j = d.isdst.getD j true := fun j hj => by
    rw [hfl j, if_pos (by omega)]
  have htt2 : ∀ j, j < d.utcoff.length →
      (tt j).utcoff = some (d.off j) ∧ (tt j).utcoff_seconds = d.off j := fun j hj => by
    rw [htt j, if_pos (by omega), ← huo2 j hj]
    exact ⟨rfl, rfl⟩
  have hload : load_data heap d = .ok
      { num_transitions := d.trans_utc.length
        num_ttinfos := d.utcoff.length
        trans_list_utc := u
        trans_list_wall := ts_to_local heap.trans_list_wall x u uo (fun _ => none)
          d.trans_utc.length
        trans_ttinfos := trans_ttinfos_loop x tt d.trans_utc.length 0
          (fun i => if i < d.trans_utc.length then none else heap.trans_ttinfos i)
        ttinfo_before :=
          if ttinfo_before_loop fl tt d.utcoff.length 0 none = none ∧ d.utcoff.length > 0
          then some (tt 0) else ttinfo_before_loop fl tt d.utcoff.length 0 none
        tzrule_after := tzrule_zero
        _ttinfos := tt } := by
    unfold load_data
    simp only [hok1, hok2, hok3]
  refine ⟨_, hload, ?_⟩
  · refine ⟨rfl, rfl, hu2, htt2, ?_, ?_, rfl, ?_⟩
    · intro i hi
      simp only [trans_ttinfos_loop_apply]
      rw [if_pos (by omega), hx2 i hi]
    · intro hm h0
      have hf0 : fl 0 = false := by rw [hfl2 0 hm]; exact h0
      have hcount : d.utcoff.length = (d.utcoff.length - 1) + 1 := by omega
      have hloop : ttinfo_before_loop fl tt d.utcoff.length 0 none = some (tt 0) := by
        rw [hcount, ttinfo_before_loop, if_pos hf0]
      simp only [hloop]
      rw [if_neg (by simp)]
    · intro hn
      obtain ⟨w0, w1, h0, h1, hrest, hw0, hw1⟩ := ts_to_local_apply heap.trans_list_wall x u uo
        (fun _ => none) d.trans_utc.length hn
      have hm : 0 < d.utcoff.length := by
        have := hidx2 0 (by omega); omega
      refine ⟨w0, w1, h0, h1, ?_, ?_, ?_⟩
      · intro i hi1 hin
        have ha := hidx2 i (by omega)
        have hb := hidx2 (i - 1) (by omega)
        rw [(hrest i hi1 hin).1, (hrest i hi1 hin).2, hu2 i hin, hx2 i hin,
          hx2 (i - 1) (by omega), huo2 _ ha, huo2 _ hb]
        exact ⟨rfl, rfl⟩
      · have ha := hidx2 0 (by omega)
        rw [hw0, hu2 0 (by omega), hx2 0 (by omega), huo2 0 hm, huo2 _ ha]
      · have ha := hidx2 0 (by omega)
        rw [hw1, hu2 0 (by omega), hx2 0 (by omega), huo2 0 hm, huo2 _ ha]

/-- The object that `load_data` returns for valid data is related to the data
as `Built` says. -/
theorem load_data_built (heap : Heap) (d : RawData) (self : PyZoneInfo_ZoneInfo)
    (hv : d.Valid) (h : load_data heap d = .ok self) : Built d self := by
  obtain ⟨s, hs, hb⟩ := load_data_valid heap d hv
  rw [hs] at h
  cases h
  exact hb

theorem Built.increasing {d : RawData} {self : PyZoneInfo_ZoneInfo} (hb : Built d self)
    (hv : d.Valid) : StrictlyIncreasing self.trans_list_utc self.num_transitions := by
  intro i hi
  rw [hb.num_transitions] at hi
  rw [hb.utc i (by omega), hb.utc (i + 1) (by omega)]
  exact hv.2.2.1 i hi

end ZoneInfo

namespace ZoneInfo

/-! ## The round trip -/

theorem roundtrip_before_first (d : RawData) (self : PyZoneInfo_ZoneInfo) (t local_ts : Int)
    (fold : Fin 2) (wall : Nat → Int) (hv : d.Valid) (hb : Built d self)
    (hfrom : zoneinfo_fromutc self t = .ok (local_ts, fold))
    (hwall : self.trans_list_wall fold = some wall)
    (hlt : t < self.trans_list_utc 0) (hstd : d.isdst.getD 0 true = false) :
    ∃ r o, find_ttinfo self local_ts fold = .ok (some r) ∧ r.utcoff = some o ∧
      local_ts - o = t := by
  have hn : 1 ≤ self.num_transitions := by
    by_contra hc
    have h0 : self.num_transitions = 0 := by omega
    unfold zoneinfo_fromutc at hfrom
    simp [h0, hb.tail, tzrule_zero, TZRULE_STATIC, fromutc_result, ttinfo_zero] at hfrom
  have hn2 : 1 ≤ d.trans_utc.length := hb.num_transitions ▸ hn
  have hm : 0 < d.utcoff.length := by
    have := hv.2.1 0 (by rw [hv.1]; omega); omega
  have hbef := hb.before hm hstd
  have ho := (hb.ttinfos 0 hm).1
  rw [fromutc_before_eq self t hn hlt, hbef] at hfrom
  obtain ⟨hl0, hf⟩ := fromutc_result_ok t _ 0 fold (d.off 0) local_ts ho hfrom
  have hl : t + d.off 0 = local_ts := hl0.symm
  subst hf
  obtain ⟨w0, w1, hw0, _, _, h00, _⟩ := hb.wall hn2
  have hww : w0 = wall := Option.some.inj (hw0.symm.trans hwall)
  subst hww
  have hts : local_ts < w0 0 := by
    rw [h00, ← hb.utc 0 (by omega), ← hl]
    have := le_max_left (d.off 0) (d.off (d.idx 0))
    split_ifs <;> omega
  refine ⟨_, d.off 0, ?_, ho, by omega⟩
  rw [find_ttinfo_first_branch self local_ts 0 w0 hw0 hts, hbef]

theorem roundtrip_between (d : RawData) (self : PyZoneInfo_ZoneInfo) (t local_ts : Int)
    (fold : Fin 2) (wall : Nat → Int) (k : Nat) (hv : d.Valid) (hb : Built d self)
    (hfrom : zoneinfo_fromutc self t = .ok (local_ts, fold))
    (hwall : self.trans_list_wall fold = some wall)
    (hmono : Nondecreasing wall self.num_transitions)
    (hk : k + 1 < self.num_transitions)
    (h1 : self.trans_list_utc k ≤ t) (h2 : t < self.trans_list_utc (k + 1))
    (hstd : k = 0 → d.isdst.getD 0 true = false)
    (hnext : fold = 1 → local_ts < wall (k + 1)) :
    ∃ r o, find_ttinfo self local_ts fold = .ok (some r) ∧ r.utcoff = some o ∧
      local_ts - o = t := by
  have hinc := hb.increasing hv
  have hk2 : k + 1 < d.trans_utc.length := hb.num_transitions ▸ hk
  have hidx : ∀ i, i < d.trans_utc.length → d.idx i < d.utcoff.length :=
    fun i hi => hv.2.1 i (by rw [hv.1]; exact hi)
  have hm : 0 < d.utcoff.length := by
    have := hidx 0 (by omega); omega
  obtain ⟨w0, w1, hw0, hw1, hrest, h00, h10⟩ := hb.wall (by omega)
  have hcur := hb.trans k (by omega)
  have hocur := hb.ttinfos (d.idx k) (hidx k (by omega))
  -- the ttinfo before transition `k`, and entry `k` of the two local arrays
  obtain ⟨p, hp, hprev, hwk0, hwk1⟩ : ∃ p, p < d.utcoff.length ∧
      (if k = 0 then self.ttinfo_before else self.trans_ttinfos (k - 1)) =
        some (self._ttinfos p) ∧
      w0 k = self.trans_list_utc k + max (d.off p) (d.off (d.idx k)) ∧
      w1 k = self.trans_list_utc k + min (d.off p) (d.off (d.idx k)) := by
    by_cases hk0 : k = 0
    · subst hk0
      refine ⟨0, hm, ?_, ?_, ?_⟩
      · rw [if_pos rfl]; exact hb.before hm (hstd rfl)
      · rw [h00, if_pos (by omega), hb.utc 0 (by omega)]
      · rw [h10, if_pos (by omega), hb.utc 0 (by omega)]
    · refine ⟨d.idx (k - 1), hidx _ (by omega), ?_, ?_, ?_⟩
      · rw [if_neg hk0]; exact hb.trans (k - 1) (by omega)
      · rw [(hrest k (by omega) (by omega)).1, hb.utc k (by omega)]
      · rw [(hrest k (by omega) (by omega)).2, hb.utc k (by omega)]
  have hop := hb.ttinfos p hp
  have hwn0 : w0 (k + 1) = self.trans_list_utc (k + 1) +
      max (d.off (d.idx k)) (d.off (d.idx (k + 1))) := by
    rw [(hrest (k + 1) (by omega) hk2).1, hb.utc (k + 1) hk2, Nat.add_sub_cancel]
  rw [fromutc_between self t k _ _ hinc hk h1 h2 hcur hprev] at hfrom
  rw [hocur.2, hop.2] at hfrom
  obtain ⟨hl0, hf0⟩ := fromutc_result_ok t _ _ fold (d.off (d.idx k)) local_ts hocur.1 hfrom
  have hl : t + d.off (d.idx k) = local_ts := hl0.symm
  have hf : (if d.off p - d.off (d.idx k) > t - self.trans_list_utc k then 1 else 0) = fold :=
    hf0.symm
  -- entry `k` of the array of the fold is at most the local time, entry `k + 1` is above it
  have hbounds : wall k ≤ local_ts ∧ local_ts < wall (k + 1) := by
    by_cases hc : d.off p - d.off (d.idx k) > t - self.trans_list_utc k
    · rw [if_pos hc] at hf
      subst hf
      have hnx := hnext rfl
      have hww : w1 = wall := Option.some.inj (hw1.symm.trans hwall)
      subst hww
      refine ⟨?_, hnx⟩
      rw [hwk1, ← hl]
      have := min_le_right (d.off p) (d.off (d.idx k))
      omega
    · rw [if_neg hc] at hf
      subst hf
      have hww : w0 = wall := Option.some.inj (hw0.symm.trans hwall)
      subst hww
      constructor
      · rw [hwk0, ← hl]
        rcases max_cases (d.off p) (d.off (d.idx k)) with ⟨h, _⟩ | ⟨h, _⟩ <;> rw [h] <;> omega
      · rw [hwn0, ← hl]
        have := le_max_left (d.off (d.idx k)) (d.off (d.idx (k + 1)))
        omega
  have hfind := (find_ttinfo_at_index self local_ts fold wall k (by omega) hwall hmono
    (le_trans (hmono.le 0 k (Nat.zero_le _) (by omega)) hbounds.1)
    (lt_of_lt_of_le hbounds.2 (hmono.le (k + 1) _ (by omega) (by omega)))
    (by omega) hbounds.1
    (fun i hi hle => by
      by_contra hc
      have := hmono.le (k + 1) i (by omega) hi
      omega))
  exact ⟨_, d.off (d.idx k), by rw [hfind, hcur], hocur.1, by omega⟩

end ZoneInfo

namespace ZoneInfo

theorem load_example_data : load_data zero_heap example_data = .ok example_zone := rfl

/-- The claim C1 fails after the last transition: in the zone that
`load_data` builds from the valid `example_data`, `zoneinfo_fromutc` at 2000500
succeeds with the local time 1996900 and fold 0, and `find_ttinfo` on that
local time and fold raises `NotImplementedError`. -/
theorem roundtrip_fails_after_last_transition :
    example_data.Valid ∧
    load_data zero_heap example_data = .ok example_zone ∧
    zoneinfo_fromutc example_zone 2000500 = .ok (1996900, 0) ∧
    find_ttinfo example_zone 1996900 0 = .error .NotImplementedError :=
  ⟨by decide, rfl, by decide, by decide⟩

/-- C1, amended. Let `load_data` build a table from valid data and let
`zoneinfo_fromutc` succeed at `t` with the local time `local_ts` and the fold
`fold`, where `t` is before the first transition, or between transition `k`
and transition `k + 1`. If ttinfo 0 is not DST when `t` is before the second
transition, the array `trans_list_wall[fold]` is nondecreasing, and for fold 1
the local time is below entry `k + 1` of that array, then `find_ttinfo` at
`local_ts` and `fold` returns a ttinfo whose UTC offset `o` satisfies
`local_ts - o = t`. -/
theorem roundtrip (heap : Heap) (d : RawData) (self : PyZoneInfo_ZoneInfo) (t local_ts : Int)
    (fold : Fin 2) (wall : Nat → Int)
    (hv : d.Valid) (hload : load_data heap d = .ok self)
    (hfrom : zoneinfo_fromutc self t = .ok (local_ts, fold))
    (hwall : self.trans_list_wall fold = some wall)
    (hmono : Nondecreasing wall self.num_transitions)
    (hcase : (t < self.trans_list_utc 0 ∧ d.isdst.getD 0 true = false) ∨
      ∃ k, k + 1 < self.num_transitions ∧
        self.trans_list_utc k ≤ t ∧ t < self.trans_list_utc (k + 1) ∧
        (k = 0 → d.isdst.getD 0 true = false) ∧
        (fold = 1 → local_ts < wall (k + 1))) :
    ∃ r o, find_ttinfo self local_ts fold = .ok (some r) ∧ r.utcoff = some o ∧
      local_ts - o = t := by
  have hb := load_data_built heap d self hv hload
  rcases hcase with ⟨hlt, hstd⟩ | ⟨k, hk, h1, h2, hstd, hnext⟩
  · exact roundtrip_before_first d self t local_ts fold wall hv hb hfrom hwall hlt hstd
  · exact roundtrip_between d self t local_ts fold wall k hv hb hfrom hwall hmono hk h1 h2
      hstd hnext

/-- C1, amended, in the zone built from `example_data`: the instant 1000500,
500 seconds after the transition from offset -3600 to offset -7200, becomes
the local time 993300 with fold 1, and the lookup of that local time with
fold 1 finds an offset that leads back to 1000500. -/
theorem roundtrip_witness :
    zoneinfo_fromutc example_zone 1000500 = .ok (993300, 1) ∧
    ∃ r o, find_ttinfo example_zone 993300 1 = .ok (some r) ∧ r.utcoff = some o ∧
      993300 - o = 1000500 :=
  ⟨by decide,
   roundtrip zero_heap example_data example_zone 1000500 993300 1
    ((example_zone.trans_list_wall 1).getD fun _ => 0)
    (by decide) rfl (by decide) rfl (by decide)
    (Or.inr ⟨0, by decide, by decide, by decide, fun _ => by decide, fun _ => by decide⟩)⟩

end ZoneInfo

namespace ZoneInfo

/-! ## `find_ttinfo` from the last transition on -/

/-- The claim C11 fails in the example table, whose tail rule is static: the
local time 2000000 is after the last entry 1996400 of the fold 0 array, and
`find_ttinfo` raises `NotImplementedError`. -/
theorem find_ttinfo_static_tail_not_implemented :
    TZRULE_STATIC (example_table none).tzrule_after = true ∧
    (example_table none).trans_list_wall 0 = some (mem_of [996400, 1996400] fun _ => 0) ∧
    (mem_of [996400, 1996400] fun _ => (0 : Int)) ((example_table none).num_transitions - 1)
      ≤ 2000000 ∧
    find_ttinfo (example_table none) 2000000 0 = .error .NotImplementedError :=
  ⟨by decide, rfl, by decide, by decide⟩

/-- C11, amended. With at least one transition, a nondecreasing array
`trans_list_wall[fold]` and a local timestamp `ts` from the last entry of that
array on, `find_ttinfo` raises `NotImplementedError` when `ts` is after the
last entry, whatever the tail rule is, and returns the ttinfo of the last
transition when `ts` is the last entry. -/
theorem find_ttinfo_from_last (self : PyZoneInfo_ZoneInfo) (ts : Int) (fold : Fin 2)
    (wall : Nat → Int) (hn : 1 ≤ self.num_transitions)
    (hwall : self.trans_list_wall fold = some wall)
    (hmono : Nondecreasing wall self.num_transitions)
    (hts : wall (self.num_transitions - 1) ≤ ts) :
    find_ttinfo self ts fold =
      if ts > wall (self.num_transitions - 1) then .error .NotImplementedError
      else .ok (self.trans_ttinfos (self.num_transitions - 1)) := by
  have hfirst : ¬ ts < wall 0 :=
    not_lt.mpr (le_trans (hmono.le 0 _ (Nat.zero_le _) (by omega)) hts)
  unfold find_ttinfo
  simp only [hwall]
  rw [if_neg hfirst, uint_sub_of_le _ _ hn]
  by_cases hgt : ts > wall (self.num_transitions - 1)
  · rw [if_pos hgt, if_pos hgt]
  · rw [if_neg hgt, if_neg hgt,
      bisect_last ts wall self.num_transitions hmono hn hts, size_sub_of_le _ _ hn]

/-- C11, amended, in the example table with a static tail rule: after the last
entry 1996400 of the fold 0 array the lookup raises `NotImplementedError`, at
that entry it returns the ttinfo of the last transition. -/
theorem find_ttinfo_from_last_witness :
    find_ttinfo (example_table none) 1996401 0 = .error .NotImplementedError ∧
    find_ttinfo (example_table none) 1996400 0 = .ok (some tti_a) :=
  ⟨find_ttinfo_from_last (example_table none) 1996401 0 (mem_of [996400, 1996400] fun _ => 0)
      (by decide) rfl (by decide) (by decide),
   find_ttinfo_from_last (example_table none) 1996400 0 (mem_of [996400, 1996400] fun _ => 0)
      (by decide) rfl (by decide) (by decide)⟩

/-! ## The arrays of `ts_to_local` -/

/-- Beyond the `n` entries that `ts_to_local` computes, its arrays hold what
the allocated blocks held. -/
theorem ts_to_local_beyond (fresh : Fin 2 → Nat → Int) (trans_idx : Nat → Nat)
    (trans_utc utcoff : Nat → Int) (trans_local : Fin 2 → Option (Nat → Int))
    (n : Nat) (hn : 1 ≤ n) :
    ∃ w0 w1 : Nat → Int,
      ts_to_local fresh trans_idx trans_utc utcoff trans_local n 0 = some w0 ∧
      ts_to_local fresh trans_idx trans_utc utcoff trans_local n 1 = some w1 ∧
      ∀ j, n ≤ j → w0 j = fresh 0 j ∧ w1 j = fresh 1 j := by
  unfold ts_to_local
  rw [if_neg (by omega)]
  dsimp only
  refine ⟨_, _, if_pos rfl, if_neg (by decide), ?_⟩
  intro j hj
  have hj0 : j ≠ 0 := by omega
  rw [(ts_to_local_loop_apply trans_idx utcoff (n - 1) 1 _ j).1,
    (ts_to_local_loop_apply trans_idx utcoff (n - 1) 1 _ j).2]
  simp only [if_neg (show ¬ (1 ≤ j ∧ j < 1 + (n - 1)) by omega), Function.update_noteq hj0,
    if_neg (show ¬ j < n by omega), and_self]

/-- C12. For every transition index `i`, `ts_to_local` produces the two
arrays, entry `i` of the fold 0 array is at least entry `i` of the fold 1
array, and both arrays have the entries of the transitions and nothing more:
from index `num_transitions` on they hold what the allocated blocks held. -/
theorem ts_to_local_fold_order (fresh : Fin 2 → Nat → Int) (trans_idx : Nat → Nat)
    (trans_utc utcoff : Nat → Int) (trans_local : Fin 2 → Option (Nat → Int))
    (num_transitions i : Nat) (hi : i < num_transitions) :
    ∃ w0 w1 : Nat → Int,
      ts_to_local fresh trans_idx trans_utc utcoff trans_local num_transitions 0 = some w0 ∧
      ts_to_local fresh trans_idx trans_utc utcoff trans_local num_transitions 1 = some w1 ∧
      w1 i ≤ w0 i ∧
      ∀ j, num_transitions ≤ j → w0 j = fresh 0 j ∧ w1 j = fresh 1 j := by
  obtain ⟨w0, w1, h0, h1, hrest, hw0, hw1⟩ := ts_to_local_apply fresh trans_idx trans_utc utcoff
    trans_local num_transitions (by omega)
  obtain ⟨v0, v1, g0, g1, hbeyond⟩ := ts_to_local_beyond fresh trans_idx trans_utc utcoff
    trans_local num_transitions (by omega)
  have e0 : v0 = w0 := Option.some.inj (g0.symm.trans h0)
  have e1 : v1 = w1 := Option.some.inj (g1.symm.trans h1)
  subst e0 e1
  refine ⟨v0, v1, h0, h1, ?_, hbeyond⟩
  by_cases hi0 : i = 0
  · subst hi0
    rw [hw0, hw1]
    have := min_le_max (a := utcoff 0) (b := utcoff (trans_idx 0))
    split_ifs <;> omega
  · rw [(hrest i (by omega) hi).1, (hrest i (by omega) hi).2]
    have := min_le_max (a := utcoff (trans_idx (i - 1))) (b := utcoff (trans_idx i))
    omega

/-- C12 at the transitions of `example_data`: both entries of both arrays,
the fold 0 entry above the fold 1 entry. -/
theorem ts_to_local_fold_order_witness :
    ∃ w0 w1 : Nat → Int,
      ts_to_local (fun _ _ => 0) (mem_of [1, 0] fun _ => 0) (mem_of [1000000, 2000000] fun _ => 0)
        (mem_of [-3600, -7200] fun _ => 0) (fun _ => none) 2 0 = some w0 ∧
      ts_to_local (fun _ _ => 0) (mem_of [1, 0] fun _ => 0) (mem_of [1000000, 2000000] fun _ => 0)
        (mem_of [-3600, -7200] fun _ => 0) (fun _ => none) 2 1 = some w1 ∧
      w1 1 ≤ w0 1 ∧
      ∀ j, 2 ≤ j → w0 j = (fun _ _ => (0 : Int)) (0 : Fin 2) j ∧
        w1 j = (fun _ _ => (0 : Int)) (1 : Fin 2) j :=
  ts_to_local_fold_order (fun _ _ => 0) (mem_of [1, 0] fun _ => 0)
    (mem_of [1000000, 2000000] fun _ => 0) (mem_of [-3600, -7200] fun _ => 0) (fun _ => none)
    2 1 (by decide)

/-- C17. For every transition index `i ≥ 1`, entry `i` of the fold 0 array of
`ts_to_local` is the UTC transition plus the greater of the UTC offsets of the
ttinfos of transitions `i - 1` and `i`, and entry `i` of the fold 1 array is
the UTC transition plus the smaller of the two. -/
theorem ts_to_local_later (fresh : Fin 2 → Nat → Int) (trans_idx : Nat → Nat)
    (trans_utc utcoff : Nat → Int) (trans_local : Fin 2 → Option (Nat → Int))
    (num_transitions i : Nat) (hi1 : 1 ≤ i) (hi : i < num_transitions) :
    ∃ w0 w1 : Nat → Int,
      ts_to_local fresh trans_idx trans_utc utcoff trans_local num_transitions 0 = some w0 ∧
      ts_to_local fresh trans_idx trans_utc utcoff trans_local num_transitions 1 = some w1 ∧
      w0 i = trans_utc i + max (utcoff (trans_idx (i - 1))) (utcoff (trans_idx i)) ∧
      w1 i = trans_utc i + min (utcoff (trans_idx (i - 1))) (utcoff (trans_idx i)) := by
  obtain ⟨w0, w1, h0, h1, hrest, _, _⟩ := ts_to_local_apply fresh trans_idx trans_utc utcoff
    trans_local num_transitions (by omega)
  exact ⟨w0, w1, h0, h1, (hrest i hi1 hi).1, (hrest i hi1 hi).2⟩

/-- C17 at transition 1 of `example_data`, from offset -7200 back to offset
-3600 at 2000000: the fold 0 entry is 1996400, the fold 1 entry 1992800. -/
theorem ts_to_local_later_witness :
    ∃ w0 w1 : Nat → Int,
      ts_to_local (fun _ _ => 0) (mem_of [1, 0] fun _ => 0) (mem_of [1000000, 2000000] fun _ => 0)
        (mem_of [-3600, -7200] fun _ => 0) (fun _ => none) 2 0 = some w0 ∧
      ts_to_local (fun _ _ => 0) (mem_of [1, 0] fun _ => 0) (mem_of [1000000, 2000000] fun _ => 0)
        (mem_of [-3600, -7200] fun _ => 0) (fun _ => none) 2 1 = some w1 ∧
      w0 1 = 1996400 ∧ w1 1 = 1992800 :=
  ts_to_local_later (fun _ _ => 0) (mem_of [1, 0] fun _ => 0)
    (mem_of [1000000, 2000000] fun _ => 0) (mem_of [-3600, -7200] fun _ => 0) (fun _ => none)
    2 1 (by decide) (by decide)

/-! ## `_bisect` as an upper bound search -/

/-- C16. On a nondecreasing array of `size` entries, `_bisect` ends within the
`size` iterations the embedding allows (more iterations give the same result)
and returns an index `r ≤ size` such that every entry before `r` is at most
the value and every entry from `r` on is above it. -/
theorem bisect_upper_bound (value : Int) (arr : Nat → Int) (size : Nat)
    (hmono : Nondecreasing arr size) :
    _bisect value arr size ≤ size ∧
    (∀ j, j < _bisect value arr size → arr j ≤ value) ∧
    (∀ j, _bisect value arr size ≤ j → j < size → value < arr j) ∧
    (∀ fuel, size ≤ fuel → bisect_loop value arr fuel 0 size = _bisect value arr size) := by
  obtain ⟨h1, h2, h3⟩ := bisect_spec value arr size hmono
  exact ⟨h1, h2, h3, fun fuel hf =>
    bisect_loop_fuel value arr fuel size 0 size (by omega) (by omega)⟩

/-- C16 on the array 10, 20, 20, 30 and the value 20: the result is 3, the
first index whose entry is above 20. -/
theorem bisect_upper_bound_witness :
    _bisect 20 (mem_of [10, 20, 20, 30] fun _ => 0) 4 = 3 ∧
    (_bisect 20 (mem_of [10, 20, 20, 30] fun _ => 0) 4 ≤ 4 ∧
    (∀ j, j < _bisect 20 (mem_of [10, 20, 20, 30] fun _ => 0) 4 →
      (mem_of [10, 20, 20, 30] fun _ => (0 : Int)) j ≤ 20) ∧
    (∀ j, _bisect 20 (mem_of [10, 20, 20, 30] fun _ => 0) 4 ≤ j → j < 4 →
      20 < (mem_of [10, 20, 20, 30] fun _ => (0 : Int)) j) ∧
    (∀ fuel, 4 ≤ fuel → bisect_loop 20 (mem_of [10, 20, 20, 30] fun _ => 0) fuel 0 4 =
      _bisect 20 (mem_of [10, 20, 20, 30] fun _ => 0) 4)) :=
  ⟨by decide, bisect_upper_bound 20 (mem_of [10, 20, 20, 30] fun _ => 0) 4 (by decide)⟩

end ZoneInfo

namespace ZoneInfo

/-! ## The index check of `load_data` -/

/-- C13, at the data tuple whose only transition has the index 1 with one
ttinfo: `load_data` succeeds, whatever the allocated blocks hold, and the
ttinfo of the transition is the cell after the one-element array `_ttinfos`.
With the index 2 in its place `load_data` raises `ValueError`. -/
theorem load_data_accepts_index_at_count (heap : Heap) :
    (∃ zone, load_data heap index_at_count_data = .ok zone ∧ zone.num_ttinfos = 1 ∧
      zone.trans_ttinfos 0 = some (heap._ttinfos 1)) ∧
    load_data heap { index_at_count_data with trans_idx := [2] } = .error .ValueError :=
  ⟨⟨_, rfl, rfl, rfl⟩, rfl⟩

/-! ## `find_ttinfo` without transitions -/

/-- C15, at the valid data tuple of a zone without transitions: `load_data`
succeeds and leaves both pointers of `trans_list_wall` null, and `find_ttinfo`
reads `local_transitions[0]` through the null pointer for every local
timestamp and fold. -/
theorem find_ttinfo_no_transitions_null (heap : Heap) (ts : Int) (fold : Fin 2) :
    no_transition_data.Valid ∧
    ∃ zone, load_data heap no_transition_data = .ok zone ∧ zone.num_transitions = 0 ∧
      zone.trans_list_wall fold = none ∧
      find_ttinfo zone ts fold = .error .NullPointer :=
  ⟨by decide, _, rfl, rfl, rfl, rfl⟩

/-! ## `utcoff_to_dstoff` and the following transition -/

/-- C19, at three transitions on the ttinfos 1, 1, 0, where ttinfo 0 is
standard with offset 0 and ttinfo 1 is DST with offset 7200 and the last
ttinfo: transition 1 lands on ttinfo 1, the comparison with transition 0
yields 0, transition 2 lands on the standard ttinfo 0, and the DST offset of
ttinfo 1 ends as the default 3600, not as 7200 - 0. With a third ttinfo after
it, the same transitions give 7200. -/
theorem utcoff_to_dstoff_skips_following_for_last_ttinfo :
    utcoff_to_dstoff (mem_of [1, 1, 0] fun _ => 0) (mem_of [0, 7200] fun _ => 0) (fun _ => 0)
      (mem_of [false, true] fun _ => false) 3 2 1 = 3600 ∧
    utcoff_to_dstoff (mem_of [1, 1, 0] fun _ => 0) (mem_of [0, 7200, 0] fun _ => 0) (fun _ => 0)
      (mem_of [false, true, false] fun _ => false) 3 3 1 = 7200 := by
  decide

/-! ## Calendar arithmetic -/

/-- For a year that fits `unsigned int`, `is_leap_year` is the leap-year rule
of the specification. -/
theorem is_leap_year_iff_spec (year : Int) (h0 : 0 ≤ year) (h1 : year < 4294967296) :
    is_leap_year year = true ↔ spec_is_leap year := by
  unfold is_leap_year spec_is_leap
  rw [Int.emod_eq_of_lt h0 h1]
  simp

/-- C14. For a year in 1..9999 and a month in 1..12, `get_local_timestamp`
stores the local seconds that the formula of the specification gives. -/
theorem get_local_timestamp_eq_spec (outside : Int → Int) (dt : PyDateTime)
    (hy1 : 1 ≤ dt.year) (hy2 : dt.year ≤ 9999) (hm1 : 1 ≤ dt.month) (hm2 : dt.month ≤ 12) :
    get_local_timestamp outside dt =
      spec_local_seconds dt.year dt.month dt.day dt.hour dt.minute dt.second := by
  have hy : (0 : Int) ≤ (dt.year : Int) - 1 := by omega
  have hleap := is_leap_year_iff_spec (dt.year : Int) (by omega) (by omega)
  have hmonth : DAYS_BEFORE_MONTH outside (dt.month : Int) =
      spec_month_offset.getD (dt.month : Int).toNat 0 := by
    unfold DAYS_BEFORE_MONTH
    rw [if_pos (by omega)]
    rfl
  unfold get_local_timestamp ymd_to_ord spec_local_seconds EPOCHORDINAL
  simp only [Int.tdiv_eq_ediv hy (by norm_num : (0 : Int) ≤ 4),
    Int.tdiv_eq_ediv hy (by norm_num : (0 : Int) ≤ 100),
    Int.tdiv_eq_ediv hy (by norm_num : (0 : Int) ≤ 400), sub_add_cancel, hmonth]
  by_cases hc : (dt.month : Int) > 2 ∧ is_leap_year (dt.year : Int) = true
  · rw [if_pos hc, if_pos ⟨hc.1, hleap.mp hc.2⟩]
    ring
  · rw [if_neg hc, if_neg (fun h => hc ⟨h.1, hleap.mpr h.2⟩)]
    ring

/-- The two values of C14: 1970-01-01 00:00:00 gives 0 and 2000-03-01
00:00:00 gives 951868800. -/
theorem get_local_timestamp_eq_spec_witness :
    get_local_timestamp (fun _ => 0) ⟨1970, 1, 1, 0, 0, 0, 0⟩ = 0 ∧
    get_local_timestamp (fun _ => 0) ⟨2000, 3, 1, 0, 0, 0, 0⟩ = 951868800 :=
  ⟨(get_local_timestamp_eq_spec (fun _ => 0) ⟨1970, 1, 1, 0, 0, 0, 0⟩ (by decide) (by decide)
      (by decide) (by decide)).trans (by decide),
   (get_local_timestamp_eq_spec (fun _ => 0) ⟨2000, 3, 1, 0, 0, 0, 0⟩ (by decide) (by decide)
      (by decide) (by decide)).trans (by decide)⟩

end ZoneInfo

namespace ZoneInfo

/-! ## The selection of `ttinfo_before` -/

/-- The loop that selects `ttinfo_before` stops at the first ttinfo that is
not DST. -/
theorem ttinfo_before_loop_first (isdst : Nat → Bool) (ttinfos : Nat → _ttinfo)
    (before : Option _ttinfo) (j : Nat) (hj : isdst j = false) :
    ∀ (count i : Nat), i ≤ j → j < i + count → (∀ k, i ≤ k → k < j → isdst k = true) →
      ttinfo_before_loop isdst ttinfos count i before = some (ttinfos j) := by
  intro count
  induction count with
  | zero => intro i h1 h2 _; omega
  | succ count ih =>
    intro i h1 h2 hall
    rw [ttinfo_before_loop]
    by_cases hij : i = j
    · subst hij
      rw [if_pos hj]
    · have hi : isdst i = true := hall i le_rfl (by omega)
      rw [if_neg (by rw [hi]; simp)]
      exact ih (i + 1) (by omega) (by omega) (fun k hk1 hk2 => hall k (by omega) hk2)

/-- The loop that selects `ttinfo_before` changes nothing when every ttinfo is
DST. -/
theorem ttinfo_before_loop_none (isdst : Nat → Bool) (ttinfos : Nat → _ttinfo)
    (before : Option _ttinfo) :
    ∀ (count i : Nat), (∀ k, i ≤ k → k < i + count → isdst k = true) →
      ttinfo_before_loop isdst ttinfos count i before = before := by
  intro count
  induction count with
  | zero => intro i _; rfl
  | succ count ih =>
    intro i hall
    have hi : isdst i = true := hall i le_rfl (by omega)
    rw [ttinfo_before_loop, if_neg (by rw [hi]; simp)]
    exact ih (i + 1) (fun k hk1 hk2 => hall k (by omega) (by omega))

/-- When the second loop of `load_data` succeeds, the list of DST flags has an
entry for each of the `count` ttinfos it visits. -/
theorem load_ttinfos_loop_length (d : RawData) :
    ∀ (count i : Nat) (w : (Nat → Int) × (Nat → Bool)) (r : (Nat → Int) × (Nat → Bool)),
    load_ttinfos_loop d count i w = .ok r →
      count = 0 ∨ (i + count ≤ d.utcoff.length ∧ i + count ≤ d.isdst.length) := by
  intro count
  induction count with
  | zero => intro i w r _; exact Or.inl rfl
  | succ count ih =>
    intro i w r h
    right
    rw [load_ttinfos_loop] at h
    by_cases h1 : i < d.utcoff.length
    · by_cases h2 : i < d.isdst.length
      · rw [getElem?_eq_some_getD d.utcoff i 0 h1, getElem?_eq_some_getD d.isdst i true h2] at h
        rcases ih (i + 1) _ r h with h0 | ⟨ha, hb⟩
        · omega
        · omega
      · rw [getElem?_eq_some_getD d.utcoff i 0 h1, List.getElem?_eq_none (not_lt.mp h2)] at h
        cases h
    · rw [List.getElem?_eq_none (not_lt.mp h1)] at h
      cases h

/-- What a successful `load_data` leaves in `num_ttinfos` and `ttinfo_before`:
`isdst` is the array of DST flags that the second loop fills. -/
theorem load_data_before_eq (heap : Heap) (d : RawData) (self : PyZoneInfo_ZoneInfo)
    (h : load_data heap d = .ok self) :
    self.num_ttinfos = d.utcoff.length ∧
    ∃ isdst : Nat → Bool, (∀ j, j < d.utcoff.length → isdst j = d.isdst.getD j true) ∧
      self.ttinfo_before =
        if ttinfo_before_loop isdst self._ttinfos d.utcoff.length 0 none = none ∧
            d.utcoff.length > 0
        then some (self._ttinfos 0)
        else ttinfo_before_loop isdst self._ttinfos d.utcoff.length 0 none := by
  unfold load_data at h
  cases hA : load_transitions_loop d d.utcoff.length d.trans_utc.length 0
      (heap.trans_list_utc, heap.trans_idx) with
  | error e => simp only [hA] at h; cases h
  | ok p =>
    cases hB : load_ttinfos_loop d d.utcoff.length 0 (heap.utcoff, heap.isdst) with
    | error e => simp only [hA, hB] at h; cases h
    | ok q =>
      have hlen : d.utcoff.length ≤ d.isdst.length := by
        rcases load_ttinfos_loop_length d _ _ _ _ hB with h0 | ⟨_, hb⟩ <;> omega
      obtain ⟨uo, fl, hok, _, hfl⟩ := load_ttinfos_loop_ok d d.utcoff.length 0
        (heap.utcoff, heap.isdst) (by omega) (by omega)
      rw [hB] at hok
      cases hok
      cases hC : build_ttinfos_loop d uo
          (utcoff_to_dstoff p.2 uo (fun i => if i < d.utcoff.length then 0 else heap.dstoff i) fl
            d.trans_utc.length d.utcoff.length) d.utcoff.length 0 heap._ttinfos with
      | error e => simp only [hA, hB, hC] at h; cases h
      | ok tt =>
        simp only [hA, hB, hC] at h
        cases h
        exact ⟨rfl, fl, fun j hj => by rw [hfl j, if_pos (by omega)], rfl⟩

/-- C20. In every table that `load_data` builds, `ttinfo_before` is the
ttinfo with the smallest index whose DST flag is false; it is ttinfo 0 when
every ttinfo is DST, and null when there is no ttinfo. -/
theorem load_data_ttinfo_before (heap : Heap) (d : RawData) (self : PyZoneInfo_ZoneInfo)
    (h : load_data heap d = .ok self) :
    (∀ j, j < self.num_ttinfos → d.isdst.getD j true = false →
      (∀ i, i < j → d.isdst.getD i true = true) →
      self.ttinfo_before = some (self._ttinfos j)) ∧
    ((∀ i, i < self.num_ttinfos → d.isdst.getD i true = true) → 0 < self.num_ttinfos →
      self.ttinfo_before = some (self._ttinfos 0)) ∧
    (self.num_ttinfos = 0 → self.ttinfo_before = none) := by
  obtain ⟨hm, isdst, hflag, hbefore⟩ := load_data_before_eq heap d self h
  rw [hm]
  refine ⟨?_, ?_, ?_⟩
  · intro j hj hstd hall
    have hloop := ttinfo_before_loop_first isdst self._ttinfos none j
      (by rw [hflag j hj]; exact hstd) d.utcoff.length 0 (Nat.zero_le _) (by omega)
      (fun k _ hk => by rw [hflag k (by omega)]; exact hall k hk)
    rw [hbefore, hloop, if_neg (by simp)]
  · intro hall hpos
    have hloop := ttinfo_before_loop_none isdst self._ttinfos none d.utcoff.length 0
      (fun k _ hk => by rw [hflag k (by omega)]; exact hall k (by omega))
    rw [hbefore, hloop, if_pos ⟨rfl, hpos⟩]
  · intro h0
    rw [hbefore, h0]
    rfl

/-- C20 in the zone built from `dst_first_data`, whose ttinfo 0 is DST and
whose ttinfo 1 is standard: `ttinfo_before` is ttinfo 1. -/
theorem load_data_ttinfo_before_witness :
    dst_first_zone.ttinfo_before = some (dst_first_zone._ttinfos 1) :=
  (load_data_ttinfo_before zero_heap dst_first_data dst_first_zone rfl).1 1 (by decide)
    (by decide) (by decide)

end ZoneInfo

namespace ZoneInfo

/-! ## The first entry of the local arrays -/

/-- The claim C18 fails in the zone built from the valid `dst_first_data`:
`ttinfo_before` is the standard ttinfo 1 (offset 3600), the ttinfo of
transition 0 is the DST ttinfo 0 (offset 7200), and entry 0 of the fold 1
array is 1000000 + 7200, not 1000000 + min(3600, 7200). -/
theorem first_wall_entry_ignores_ttinfo_before :
    dst_first_data.Valid ∧
    load_data zero_heap dst_first_data = .ok dst_first_zone ∧
    dst_first_zone.ttinfo_before = some (build_ttinfo 3600 0 "S") ∧
    dst_first_zone.trans_ttinfos 0 = some (build_ttinfo 7200 3600 "D") ∧
    dst_first_zone.trans_list_utc 0 = 1000000 ∧
    (dst_first_zone.trans_list_wall 1).map (fun w => w 0) = some 1007200 ∧
    (1007200 : Int) ≠ 1000000 + min 3600 7200 :=
  ⟨by decide, rfl, by decide, by decide, by decide, by decide, by decide⟩

/-- C18, amended. In a table that `load_data` builds from valid data with at
least two transitions, entry 0 of the fold 0 array is the first UTC transition
plus the greater of the UTC offsets of ttinfo 0 and of the ttinfo of
transition 0, and entry 0 of the fold 1 array is the first UTC transition plus
the smaller of the two; ttinfo 0 is `ttinfo_before` when it is not DST. -/
theorem load_data_first_wall_entry (heap : Heap) (d : RawData) (self : PyZoneInfo_ZoneInfo)
    (hv : d.Valid) (hload : load_data heap d = .ok self) (hn : 2 ≤ self.num_transitions) :
    ∃ (w0 w1 : Nat → Int) (act : _ttinfo),
      self.trans_list_wall 0 = some w0 ∧ self.trans_list_wall 1 = some w1 ∧
      self.trans_ttinfos 0 = some act ∧
      w0 0 = self.trans_list_utc 0 + max (self._ttinfos 0).utcoff_seconds act.utcoff_seconds ∧
      w1 0 = self.trans_list_utc 0 + min (self._ttinfos 0).utcoff_seconds act.utcoff_seconds ∧
      (d.isdst.getD 0 true = false → self.ttinfo_before = some (self._ttinfos 0)) := by
  have hb := load_data_built heap d self hv hload
  have hn2 : 2 ≤ d.trans_utc.length := hb.num_transitions ▸ hn
  have hidx : d.idx 0 < d.utcoff.length := hv.2.1 0 (by rw [hv.1]; omega)
  have hm : 0 < d.utcoff.length := by omega
  obtain ⟨w0, w1, h0, h1, _, hw0, hw1⟩ := hb.wall (by omega)
  refine ⟨w0, w1, self._ttinfos (d.idx 0), h0, h1, hb.trans 0 (by omega), ?_, ?_, hb.before hm⟩
  · rw [hw0, if_pos (by omega), hb.utc 0 (by omega), (hb.ttinfos 0 hm).2, (hb.ttinfos _ hidx).2]
  · rw [hw1, if_pos (by omega), hb.utc 0 (by omega), (hb.ttinfos 0 hm).2, (hb.ttinfos _ hidx).2]

/-- C18, amended, in the zone built from `example_data`: ttinfo 0 has the
offset -3600 and is `ttinfo_before`, transition 0 at 1000000 goes to offset
-7200, and the first entries are 996400 for fold 0 and 992800 for fold 1. -/
theorem load_data_first_wall_entry_witness :
    ((example_zone.trans_list_wall 0).map (fun w => w 0) = some 996400 ∧
      (example_zone.trans_list_wall 1).map (fun w => w 0) = some 992800) ∧
    ∃ (w0 w1 : Nat → Int) (act : _ttinfo),
      example_zone.trans_list_wall 0 = some w0 ∧ example_zone.trans_list_wall 1 = some w1 ∧
      example_zone.trans_ttinfos 0 = some act ∧
      w0 0 = example_zone.trans_list_utc 0 +
        max (example_zone._ttinfos 0).utcoff_seconds act.utcoff_seconds ∧
      w1 0 = example_zone.trans_list_utc 0 +
        min (example_zone._ttinfos 0).utcoff_seconds act.utcoff_seconds ∧
      (example_data.isdst.getD 0 true = false →
        example_zone.ttinfo_before = some (example_zone._ttinfos 0)) :=
  ⟨⟨by decide, by decide⟩,
   load_data_first_wall_entry zero_heap example_data example_zone (by decide) rfl (by decide)⟩

end ZoneInfo

namespace ZoneInfo

/-! ## `zoneinfo_fromutc` from the last transition on, with a static tail rule -/

/-- From the last transition on with a static tail rule, `zoneinfo_fromutc`
tests `idx >= 2` before `idx == num_trans`: with two or more transitions the
current ttinfo is the one of the last transition and the previous ttinfo the
one of the transition before it, and the branch of the tail rule is taken with
exactly one transition only. -/
theorem fromutc_last_branches (self : PyZoneInfo_ZoneInfo) (t : Int) (prev cur : _ttinfo)
    (hinc : StrictlyIncreasing self.trans_list_utc self.num_transitions)
    (hn : 1 ≤ self.num_transitions)
    (hstatic : TZRULE_STATIC self.tzrule_after = true)
    (ht : self.trans_list_utc (self.num_transitions - 1) ≤ t)
    (hprev : (if self.num_transitions = 1 then self.trans_ttinfos 0
      else self.trans_ttinfos (self.num_transitions - 2)) = some prev)
    (hcur : (if self.num_transitions = 1 then some self.tzrule_after.std
      else self.trans_ttinfos (self.num_transitions - 1)) = some cur) :
    zoneinfo_fromutc self t = fromutc_result t (some cur)
      (if prev.utcoff_seconds - cur.utcoff_seconds >
          t - self.trans_list_utc (self.num_transitions - 1) then 1 else 0) := by
  have hmono := hinc.nondecreasing
  have hb := bisect_last t self.trans_list_utc self.num_transitions hmono hn ht
  have h0 : ¬ (self.num_transitions ≥ 1 ∧ t < self.trans_list_utc 0) := by
    rintro ⟨_, hc⟩
    have := hinc.first_le (self.num_transitions - 1) (by omega)
    omega
  have hlast : ¬ ((self.num_transitions = 0 ∨
      t > self.trans_list_utc (size_sub self.num_transitions 1)) ∧
      TZRULE_STATIC self.tzrule_after = false) := by
    rintro ⟨_, hc⟩
    rw [hstatic] at hc
    cases hc
  unfold zoneinfo_fromutc
  simp only [if_neg h0, if_neg hlast, if_neg (show ¬ self.num_transitions = 0 by omega), hb]
  rw [size_sub_of_le _ 1 hn]
  by_cases h1 : self.num_transitions = 1
  · rw [if_pos h1] at hprev hcur
    simp only [if_neg (show ¬ self.num_transitions ≥ 2 by omega), if_true]
    rw [show self.num_transitions - 1 = 0 by omega, hprev]
    cases hcur
    rfl
  · rw [if_neg h1] at hprev hcur
    simp only [if_pos (show self.num_transitions ≥ 2 by omega)]
    rw [size_sub_of_le _ 2 (by omega), hprev, hcur]

/-- C21, at three zones with a static tail rule. In `tail_b_table`, with two
transitions and the tail offset -7200, `zoneinfo_fromutc` at 2000500, after the
last transition, returns 2000500 - 3600, the local time of the ttinfo of the
last transition, not 2000500 - 7200: the branch `idx == num_trans` that takes
`tzrule_after.std` comes after `idx >= 2` and is not reached. In
`one_transition_table`, with one transition to the offset -7200 and the tail
offset -3600, that branch is reached and the result is 1000500 - 3600. In the
zone that `load_data` builds from the valid `one_transition_data`, the tail
rule is static, `load_data` has left its `utcoff` null, and `zoneinfo_fromutc`
at 1000500 reads through the null pointer. -/
theorem fromutc_after_last_uses_last_transition (heap : Heap) :
    (TZRULE_STATIC tail_b_table.tzrule_after = true ∧
      tail_b_table.tzrule_after.std.utcoff = some (-7200) ∧
      tail_b_table.num_transitions = 2 ∧
      tail_b_table.trans_list_utc (tail_b_table.num_transitions - 1) ≤ 2000500 ∧
      zoneinfo_fromutc tail_b_table 2000500 = .ok (1996900, 0) ∧
      (1996900 : Int) ≠ 2000500 + (-7200)) ∧
    (TZRULE_STATIC one_transition_table.tzrule_after = true ∧
      one_transition_table.tzrule_after.std.utcoff = some (-3600) ∧
      one_transition_table.trans_ttinfos 0 = some tti_b ∧ tti_b.utcoff = some (-7200) ∧
      one_transition_table.num_transitions = 1 ∧
      one_transition_table.trans_list_utc 0 ≤ 1000500 ∧
      zoneinfo_fromutc one_transition_table 1000500 = .ok (1000500 + (-3600), 0)) ∧
    (one_transition_data.Valid ∧
      ∃ zone, load_data heap one_transition_data = .ok zone ∧
        zone.num_transitions = 1 ∧
        TZRULE_STATIC zone.tzrule_after = true ∧
        zone.tzrule_after.std.utcoff = none ∧
        zone.trans_list_utc 0 ≤ 1000500 ∧
        zoneinfo_fromutc zone 1000500 = .error .NullPointer) := by
  refine ⟨by decide, by decide, by decide, _, rfl, rfl, rfl, rfl, ?_, ?_⟩
  · show (1000000 : Int) ≤ 1000500
    decide
  · simp [zoneinfo_fromutc, one_transition_data, TZRULE_STATIC, tzrule_zero, ttinfo_zero,
      fromutc_result, size_sub, SIZE_MODULUS, _bisect, bisect_loop, trans_ttinfos_loop]

/-! ## The leap-year rule -/

/-- C22. For every year in 1..9999, `is_leap_year` is true exactly when the
year is divisible by 4 and not divisible by 100 or divisible by 400. -/
theorem is_leap_year_rule (y : Int) (h1 : 1 ≤ y) (h2 : y ≤ 9999) :
    is_leap_year y = true ↔ (4 ∣ y ∧ (¬ 100 ∣ y ∨ 400 ∣ y)) := by
  rw [is_leap_year_iff_spec y (by omega) (by omega)]
  unfold spec_is_leap
  simp only [Int.dvd_iff_emod_eq_zero, ne_eq]

/-- C22 at the years 2000 (leap), 1900 (not leap), 2024 (leap) and 2023 (not
leap). -/
theorem is_leap_year_rule_witness :
    is_leap_year 2000 = true ∧ ¬ (is_leap_year 1900 = true) ∧
    is_leap_year 2024 = true ∧ ¬ (is_leap_year 2023 = true) :=
  ⟨(is_leap_year_rule 2000 (by decide) (by decide)).mpr (by decide),
   fun h => absurd ((is_leap_year_rule 1900 (by decide) (by decide)).mp h) (by decide),
   (is_leap_year_rule 2024 (by decide) (by decide)).mpr (by decide),
   fun h => absurd ((is_leap_year_rule 2023 (by decide) (by decide)).mp h) (by decide)⟩

/-! ## Reads beyond the arrays in `utcoff_to_dstoff` -/

/-- C23, at two transitions on the DST ttinfo 0 with two ttinfos: the three
runs agree on `trans_idx[0..1]`, `utcoffs[0..1]` and `isdsts[0..1]`, and the
DST offset of ttinfo 0 is 3600 when `trans_idx[2]` holds 0, -100 when
`trans_idx[2]` holds 5 and `utcoffs[5]` holds 100, and -200 when `utcoffs[5]`
holds 200: the result depends on `trans_idx[num_transitions]` and on
`utcoffs` and `isdsts` at an index beyond `num_ttinfos`. -/
theorem utcoff_to_dstoff_reads_beyond_arrays :
    ValidIndices (mem_of [0, 0] fun _ => 5) 2 2 ∧
    utcoff_to_dstoff (mem_of [0, 0] fun _ => 0) (mem_of [0, 3600] fun _ => 100) (fun _ => 0)
      (mem_of [true, false] fun _ => false) 2 2 0 = 3600 ∧
    utcoff_to_dstoff (mem_of [0, 0] fun _ => 5) (mem_of [0, 3600] fun _ => 100) (fun _ => 0)
      (mem_of [true, false] fun _ => false) 2 2 0 = -100 ∧
    utcoff_to_dstoff (mem_of [0, 0] fun _ => 5) (mem_of [0, 3600] fun _ => 200) (fun _ => 0)
      (mem_of [true, false] fun _ => false) 2 2 0 = -200 := by
  decide

/-! ## The index that `_bisect` yields -/

/-- The loop of `_bisect` never lowers `hi` to 0 when entry 0 is at most the
value, and never raises it. -/
theorem bisect_loop_range (value : Int) (arr : Nat → Int) (h0 : arr 0 ≤ value) :
    ∀ (fuel lo hi : Nat), 1 ≤ hi →
      1 ≤ bisect_loop value arr fuel lo hi ∧ bisect_loop value arr fuel lo hi ≤ hi := by
  intro fuel
  induction fuel with
  | zero => intro lo hi h; exact ⟨h, le_rfl⟩
  | succ fuel ih =>
    intro lo hi h
    rw [bisect_loop]
    dsimp only
    split_ifs with hlt hgt
    · have hm : 1 ≤ (lo + hi) / 2 := by
        by_contra hc
        have hz : (lo + hi) / 2 = 0 := by omega
        rw [hz] at hgt
        omega
      have := ih lo ((lo + hi) / 2) hm
      exact ⟨this.1, by omega⟩
    · exact ih ((lo + hi) / 2 + 1) hi h
    · exact ⟨h, le_rfl⟩

/-- C24. For an array of `n ≥ 1` entries, sorted or not, and a value that is
at least entry 0, `_bisect` returns `r` with `1 ≤ r ≤ n`, so that `r - 1`, the
index that `find_ttinfo` and `zoneinfo_fromutc` compute from it, is below `n`;
and when `find_ttinfo` reaches its last branch with that array, it returns the
entry of `trans_ttinfos` at that index. -/
theorem bisect_index_in_range (value : Int) (arr : Nat → Int) (n : Nat)
    (hn : 1 ≤ n) (h0 : arr 0 ≤ value) :
    (1 ≤ _bisect value arr n ∧ _bisect value arr n ≤ n) ∧
    size_sub (_bisect value arr n) 1 < n ∧
    ∀ (self : PyZoneInfo_ZoneInfo) (fold : Fin 2), self.num_transitions = n →
      self.trans_list_wall fold = some arr → ¬ value > arr (n - 1) →
      find_ttinfo self value fold = .ok (self.trans_ttinfos (size_sub (_bisect value arr n) 1)) := by
  have hr : 1 ≤ _bisect value arr n ∧ _bisect value arr n ≤ n :=
    bisect_loop_range value arr h0 n 0 n hn
  refine ⟨hr, ?_, ?_⟩
  · rw [size_sub_of_le _ 1 hr.1]
    omega
  · intro self fold hnum hwall hlast
    unfold find_ttinfo
    simp only [hwall, hnum]
    rw [if_neg (not_lt.mpr h0), uint_sub_of_le _ _ hn, if_neg hlast]

/-- C24 on the unsorted array 10, 40, 20, 30 and the value 25: `_bisect`
returns 3, and 3 - 1 is below 4. -/
theorem bisect_index_in_range_witness :
    _bisect 25 (mem_of [10, 40, 20, 30] fun _ => 0) 4 = 3 ∧
    (1 ≤ _bisect 25 (mem_of [10, 40, 20, 30] fun _ => 0) 4 ∧
      _bisect 25 (mem_of [10, 40, 20, 30] fun _ => 0) 4 ≤ 4) ∧
    size_sub (_bisect 25 (mem_of [10, 40, 20, 30] fun _ => 0) 4) 1 < 4 :=
  ⟨by decide,
   (bisect_index_in_range 25 (mem_of [10, 40, 20, 30] fun _ => 0) 4 (by decide) (by decide)).1,
   (bisect_index_in_range 25 (mem_of [10, 40, 20, 30] fun _ => 0) 4 (by decide) (by decide)).2.1⟩

end ZoneInfo

namespace ZoneInfo

/-! ## Sortedness of the local arrays -/

/-- C26. When the transition indices are valid and every gap between
consecutive UTC transitions exceeds every difference between the UTC offsets
of two ttinfos, both arrays that `ts_to_local` produces are strictly
increasing (and so nondecreasing, as the bisection of `find_ttinfo` needs). -/
theorem ts_to_local_sorted (fresh : Fin 2 → Nat → Int) (trans_idx : Nat → Nat)
    (trans_utc utcoff : Nat → Int) (trans_local : Fin 2 → Option (Nat → Int))
    (num_transitions num_ttinfos : Nat) (hn : 1 ≤ num_transitions)
    (hvalid : ValidIndices trans_idx num_transitions num_ttinfos)
    (hgap : ∀ i, i < num_transitions - 1 → ∀ a, a < num_ttinfos → ∀ b, b < num_ttinfos →
      utcoff a - utcoff b < trans_utc (i + 1) - trans_utc i) :
    ∃ w0 w1 : Nat → Int,
      ts_to_local fresh trans_idx trans_utc utcoff trans_local num_transitions 0 = some w0 ∧
      ts_to_local fresh trans_idx trans_utc utcoff trans_local num_transitions 1 = some w1 ∧
      StrictlyIncreasing w0 num_transitions ∧ StrictlyIncreasing w1 num_transitions ∧
      Nondecreasing w0 num_transitions ∧ Nondecreasing w1 num_transitions := by
  obtain ⟨w0, w1, h0, h1, hrest, hw0, hw1⟩ := ts_to_local_apply fresh trans_idx trans_utc utcoff
    trans_local num_transitions hn
  have hm : 0 < num_ttinfos := by
    have := hvalid 0 (by omega); omega
  -- entry `i` is the UTC transition plus the greater (smaller) of the offset of the ttinfo of
  -- transition `i` and the offset of some ttinfo
  have hentry : ∀ i, i < num_transitions - 1 → ∃ a, a < num_ttinfos ∧
      w0 i = trans_utc i + max (utcoff a) (utcoff (trans_idx i)) ∧
      w1 i = trans_utc i + min (utcoff a) (utcoff (trans_idx i)) := by
    intro i hi
    by_cases hi0 : i = 0
    · subst hi0
      refine ⟨0, hm, ?_, ?_⟩
      · rw [hw0, if_pos (by omega)]
      · rw [hw1, if_pos (by omega)]
    · exact ⟨trans_idx (i - 1), hvalid _ (by omega), (hrest i (by omega) (by omega)).1,
        (hrest i (by omega) (by omega)).2⟩
  have hs0 : StrictlyIncreasing w0 num_transitions := by
    intro i hi
    obtain ⟨a, ha, e0, _⟩ := hentry i hi
    have hnext := (hrest (i + 1) (by omega) (by omega)).1
    rw [Nat.add_sub_cancel] at hnext
    rw [e0, hnext]
    have g1 := hgap i hi a ha (trans_idx i) (hvalid i (by omega))
    have g2 := hgap i hi a ha a ha
    have := le_max_left (utcoff (trans_idx i)) (utcoff (trans_idx (i + 1)))
    rcases max_cases (utcoff a) (utcoff (trans_idx i)) with ⟨h, _⟩ | ⟨h, _⟩ <;> rw [h] <;> omega
  have hs1 : StrictlyIncreasing w1 num_transitions := by
    intro i hi
    obtain ⟨a, ha, _, e1⟩ := hentry i hi
    have hnext := (hrest (i + 1) (by omega) (by omega)).2
    rw [Nat.add_sub_cancel] at hnext
    rw [e1, hnext]
    have g1 := hgap i hi (trans_idx i) (hvalid i (by omega)) (trans_idx (i + 1))
      (hvalid (i + 1) (by omega))
    have g2 := hgap i hi a ha a ha
    have := min_le_right (utcoff a) (utcoff (trans_idx i))
    rcases min_cases (utcoff (trans_idx i)) (utcoff (trans_idx (i + 1))) with ⟨h, _⟩ | ⟨h, _⟩ <;>
      rw [h] <;> omega
  exact ⟨w0, w1, h0, h1, hs0, hs1, hs0.nondecreasing, hs1.nondecreasing⟩

/-- C26 at the arrays of `example_data`: the gap of 1000000 seconds exceeds the
offset difference of 3600 seconds, and both local arrays are strictly
increasing. -/
theorem ts_to_local_sorted_witness :
    ∃ w0 w1 : Nat → Int,
      ts_to_local (fun _ _ => 0) (mem_of [1, 0] fun _ => 0) (mem_of [1000000, 2000000] fun _ => 0)
        (mem_of [-3600, -7200] fun _ => 0) (fun _ => none) 2 0 = some w0 ∧
      ts_to_local (fun _ _ => 0) (mem_of [1, 0] fun _ => 0) (mem_of [1000000, 2000000] fun _ => 0)
        (mem_of [-3600, -7200] fun _ => 0) (fun _ => none) 2 1 = some w1 ∧
      StrictlyIncreasing w0 2 ∧ StrictlyIncreasing w1 2 ∧
      Nondecreasing w0 2 ∧ Nondecreasing w1 2 :=
  ts_to_local_sorted (fun _ _ => 0) (mem_of [1, 0] fun _ => 0)
    (mem_of [1000000, 2000000] fun _ => 0) (mem_of [-3600, -7200] fun _ => 0) (fun _ => none)
    2 2 (by decide) (by decide) (by decide)

end ZoneInfo

namespace ZoneInfo

/-! ## Ordinals and calendar days -/

/-- For a year from 1 on that fits `unsigned int` and a month in 1..12,
`ymd_to_ord` is the sum of the days before the year, the days before the
month and the day. -/
theorem ymd_to_ord_eq (outside : Int → Int) (y m d : Int) (hy1 : 1 ≤ y) (hy2 : y < 4294967296)
    (hm1 : 1 ≤ m) (hm2 : m ≤ 12) :
    ymd_to_ord outside y m d = spec_days_before_year y + spec_month_start y m + d := by
  have hy : (0 : Int) ≤ y - 1 := by omega
  have hleap := is_leap_year_iff_spec y (by omega) hy2
  have hmonth : DAYS_BEFORE_MONTH outside m = spec_month_offset.getD m.toNat 0 := by
    unfold DAYS_BEFORE_MONTH
    rw [if_pos (by omega)]
    rfl
  unfold ymd_to_ord spec_days_before_year spec_month_start
  simp only [Int.tdiv_eq_ediv hy (by norm_num : (0 : Int) ≤ 4),
    Int.tdiv_eq_ediv hy (by norm_num : (0 : Int) ≤ 100),
    Int.tdiv_eq_ediv hy (by norm_num : (0 : Int) ≤ 400), sub_add_cancel, hmonth]
  by_cases hc : m > 2 ∧ is_leap_year y = true
  · rw [if_pos hc, if_pos ⟨hc.1, hleap.mp hc.2⟩]
    ring
  · rw [if_neg hc, if_neg (fun h => hc ⟨h.1, hleap.mpr h.2⟩)]
    ring

/-- The bounds of `fromutc_result` are the local timestamps of
0001-01-01 00:00:00 and of 9999-12-31 23:59:59, the least and the greatest
`datetime` to the second. -/
theorem datetime_range_timestamps (outside : Int → Int) :
    get_local_timestamp outside ⟨1, 1, 1, 0, 0, 0, 0⟩ = datetime_min_ts ∧
    get_local_timestamp outside ⟨9999, 12, 31, 23, 59, 59, 0⟩ = datetime_max_ts := by
  constructor
  · unfold get_local_timestamp
    dsimp only
    rw [ymd_to_ord_eq outside _ _ _ (by decide) (by decide) (by decide) (by decide)]
    decide
  · unfold get_local_timestamp
    dsimp only
    rw [ymd_to_ord_eq outside _ _ _ (by decide) (by decide) (by decide) (by decide)]
    decide

/-- The number of days of a year: 366 in a leap year, 365 otherwise. -/
theorem spec_days_before_year_succ (y : Int) :
    spec_days_before_year (y + 1) =
      spec_days_before_year y + 365 + (if spec_is_leap y then 1 else 0) := by
  unfold spec_days_before_year spec_is_leap
  split_ifs with h <;> omega

theorem spec_days_before_year_mono (a b : Int) (h : a ≤ b) :
    spec_days_before_year a ≤ spec_days_before_year b := by
  unfold spec_days_before_year
  omega

/-- The months of a year follow each other without gap. -/
theorem spec_month_start_succ (y m : Int) (hm1 : 1 ≤ m) (hm2 : m < 12) :
    spec_month_start y (m + 1) = spec_month_start y m + days_in_month y m := by
  unfold spec_month_start days_in_month spec_month_offset
  by_cases hl : spec_is_leap y <;> interval_cases m <;> simp [hl]

/-- December ends the year. -/
theorem spec_month_start_december (y : Int) :
    spec_month_start y 12 + days_in_month y 12 = 365 + (if spec_is_leap y then 1 else 0) := by
  unfold spec_month_start days_in_month spec_month_offset
  by_cases hl : spec_is_leap y <;> simp [hl]

theorem days_in_month_pos (y m : Int) : 1 ≤ days_in_month y m := by
  unfold days_in_month
  split_ifs <;> omega

/-- A later month starts after the end of an earlier one. -/
theorem spec_month_start_mono (y : Int) (m1 m2 : Int) (h1 : 1 ≤ m1) (h12 : m1 < m2)
    (h2 : m2 ≤ 12) :
    spec_month_start y m1 + days_in_month y m1 ≤ spec_month_start y m2 := by
  obtain ⟨k, rfl⟩ : ∃ k : Nat, m2 = m1 + 1 + k := ⟨(m2 - m1 - 1).toNat, by omega⟩
  induction k with
  | zero =>
    rw [Nat.cast_zero, add_zero, spec_month_start_succ y m1 h1 (by omega)]
  | succ k ih =>
    have hk := ih (by omega) (by omega)
    have hs := spec_month_start_succ y (m1 + 1 + k) (by omega) (by push_cast at h2; omega)
    have hp := days_in_month_pos y (m1 + 1 + k)
    have : m1 + 1 + ((k + 1 : Nat) : Int) = m1 + 1 + k + 1 := by push_cast; ring
    rw [this, hs]
    omega

theorem spec_month_start_nonneg (y m : Int) (hm1 : 1 ≤ m) (hm2 : m ≤ 12) :
    0 ≤ spec_month_start y m := by
  unfold spec_month_start spec_month_offset
  by_cases hl : spec_is_leap y <;> interval_cases m <;> simp [hl]

theorem spec_month_end_le (y m : Int) (hm1 : 1 ≤ m) (hm2 : m ≤ 12) :
    spec_month_start y m + days_in_month y m ≤ 365 + (if spec_is_leap y then 1 else 0) := by
  by_cases h : m = 12
  · subst h; exact le_of_eq (spec_month_start_december y)
  · have h1 := spec_month_start_mono y m 12 hm1 (by omega) le_rfl
    have h2 := spec_month_start_december y
    have h3 := days_in_month_pos y 12
    omega

theorem spec_month_start_january (y : Int) : spec_month_start y 1 = 0 := by
  unfold spec_month_start spec_month_offset
  simp

/-- C25. `ymd_to_ord(1, 1, 1)` is 1; for every valid date with a year in
1..9999 the ordinal of the next calendar day is the ordinal of the date plus 1;
and of two valid dates the chronologically earlier one has the smaller
ordinal. -/
theorem ymd_to_ord_counts_days (outside : Int → Int) :
    ymd_to_ord outside 1 1 1 = 1 ∧
    (∀ y m d, valid_date y m d →
      ymd_to_ord outside (next_day y m d).1 (next_day y m d).2.1 (next_day y m d).2.2 =
        ymd_to_ord outside y m d + 1) ∧
    (∀ y1 m1 d1 y2 m2 d2, valid_date y1 m1 d1 → valid_date y2 m2 d2 →
      date_before y1 m1 d1 y2 m2 d2 →
      ymd_to_ord outside y1 m1 d1 < ymd_to_ord outside y2 m2 d2) := by
  refine ⟨?_, ?_, ?_⟩
  · rw [ymd_to_ord_eq outside 1 1 1 (by decide) (by decide) (by decide) (by decide),
      spec_month_start_january]
    decide
  · rintro y m d ⟨hy1, hy2, hm1, hm2, hd1, hd2⟩
    rw [ymd_to_ord_eq outside y m d hy1 (by omega) hm1 hm2]
    unfold next_day
    by_cases hd : d < days_in_month y m
    · rw [if_pos hd]
      dsimp only
      rw [ymd_to_ord_eq outside y m (d + 1) hy1 (by omega) hm1 hm2]
      ring
    · rw [if_neg hd]
      have hde : d = days_in_month y m := by omega
      by_cases hm : m < 12
      · rw [if_pos hm]
        dsimp only
        rw [ymd_to_ord_eq outside y (m + 1) 1 hy1 (by omega) (by omega) (by omega),
          spec_month_start_succ y m hm1 hm]
        omega
      · rw [if_neg hm]
        dsimp only
        have hm12 : m = 12 := by omega
        subst hm12
        rw [ymd_to_ord_eq outside (y + 1) 1 1 (by omega) (by omega) (by decide) (by decide),
          spec_month_start_january, spec_days_before_year_succ]
        have := spec_month_start_december y
        omega
  · rintro y1 m1 d1 y2 m2 d2 ⟨ha1, ha2, hb1, hb2, hc1, hc2⟩ ⟨he1, he2, hf1, hf2, hg1, hg2⟩ hlt
    rw [ymd_to_ord_eq outside y1 m1 d1 ha1 (by omega) hb1 hb2,
      ymd_to_ord_eq outside y2 m2 d2 he1 (by omega) hf1 hf2]
    rcases hlt with hy | ⟨hy, hm | ⟨hm, hd⟩⟩
    · have h1 := spec_month_end_le y1 m1 hb1 hb2
      have h2 := spec_days_before_year_succ y1
      have h3 := spec_days_before_year_mono (y1 + 1) y2 (by omega)
      have h4 := spec_month_start_nonneg y2 m2 hf1 hf2
      omega
    · subst hy
      have := spec_month_start_mono y1 m1 m2 hb1 hm hf2
      omega
    · subst hy hm
      omega

/-- C25 at the ends of the Februaries of 2000 (leap) and 1900 (not leap), at
the end of the year 1999 and at an ordinary day: the next day has the next
ordinal, and 1999-12-31 comes before 2000-03-01. -/
theorem ymd_to_ord_counts_days_witness :
    ymd_to_ord (fun _ => 0) 2000 2 29 = ymd_to_ord (fun _ => 0) 2000 2 28 + 1 ∧
    ymd_to_ord (fun _ => 0) 2000 3 1 = ymd_to_ord (fun _ => 0) 2000 2 29 + 1 ∧
    ymd_to_ord (fun _ => 0) 1900 3 1 = ymd_to_ord (fun _ => 0) 1900 2 28 + 1 ∧
    ymd_to_ord (fun _ => 0) 2000 1 1 = ymd_to_ord (fun _ => 0) 1999 12 31 + 1 ∧
    ymd_to_ord (fun _ => 0) 1999 12 31 < ymd_to_ord (fun _ => 0) 2000 3 1 ∧
    ymd_to_ord (fun _ => 0) 1970 1 1 = 719163 :=
  ⟨(ymd_to_ord_counts_days fun _ => 0).2.1 2000 2 28 (by decide),
   (ymd_to_ord_counts_days fun _ => 0).2.1 2000 2 29 (by decide),
   (ymd_to_ord_counts_days fun _ => 0).2.1 1900 2 28 (by decide),
   (ymd_to_ord_counts_days fun _ => 0).2.1 1999 12 31 (by decide),
   (ymd_to_ord_counts_days fun _ => 0).2.2 1999 12 31 2000 3 1 (by decide) (by decide)
     (by decide),
   by decide⟩

end ZoneInfo
